import Mathlib

/-!
Verification development for the keep-a-changelog core (tokenizer, parser,
document model, formatter).  Strings are modelled as `List Char`; stateful
Rust code is modelled by explicit state passing; fallible code returns the
`Res` outcome type below, which distinguishes an `Err` result from a panic.
-/

/-- Strings of the modelled program, as lists of characters. -/
abbrev Str := List Char

/-- Whitespace as used by Rust's `str::trim` / `trim_end` (ASCII fragment). -/
def isWsChar (c : Char) : Bool :=
  c = ' ' || c = '\t' || c = '\n' || c = '\r'

/-- Whitespace class of the `regex` crate's `\s`. -/
def isRegexWs (c : Char) : Bool :=
  c = ' ' || c = '\t' || c = '\n' || c = '\r' || c = '\x0b' || c = '\x0c'

/-- Drop leading whitespace (`str::trim_start`). -/
def dropWs (s : Str) : Str := s.dropWhile isWsChar

/-- Drop trailing whitespace (`str::trim_end`). -/
def trimEndWs (s : Str) : Str := (s.reverse.dropWhile isWsChar).reverse

/-- Trim both ends (`str::trim`). -/
def trimStr (s : Str) : Str := trimEndWs (dropWs s)

/-- Split on a separator character; like Rust's `str::split(c)`, an empty
string yields one empty piece. -/
def splitOnChar (sep : Char) : Str → List Str
  | [] => [[]]
  | c :: rest =>
    if c = sep then [] :: splitOnChar sep rest
    else
      match splitOnChar sep rest with
      | [] => [[c]]
      | l :: ls => (c :: l) :: ls

/-- Split into lines, Rust's `str::split('\n')`. -/
def splitLines (s : Str) : List Str := splitOnChar '\n' s

/-- Join with newlines, Rust's `[String]::join("\n")`. -/
def joinNl (v : List Str) : Str := List.intercalate ['\n'] v

/-- Join with single spaces, Rust's `[String]::join(" ")`. -/
def joinSp (v : List Str) : Str := List.intercalate [' '] v

/-- Rust `str::contains(pat)` for a plain substring pattern. -/
def containsSub (pat : Str) : Str → Bool
  | [] => pat.isPrefixOf []
  | s@(_ :: rest) => pat.isPrefixOf s || containsSub pat rest

/-- One left-to-right, non-overlapping pass of
`String::replace("\n\n\n", "\n\n")`: after a match the scan resumes past the
matched text. -/
def replacePass : Str → Str
  | '\n' :: '\n' :: '\n' :: rest => '\n' :: '\n' :: replacePass rest
  | c :: rest => c :: replacePass rest
  | [] => []

/-- Decimal digits of a natural number. -/
def natToStr (n : Nat) : Str := Nat.toDigits 10 n

/-- Zero-pad to two digits (`chrono` `%m` / `%d` formatting). -/
def pad2 (n : Nat) : Str := if n < 10 then '0' :: natToStr n else natToStr n

/-- Zero-pad to four digits (`chrono` `%Y` formatting). -/
def pad4 (n : Nat) : Str :=
  if n < 10 then '0' :: '0' :: '0' :: natToStr n
  else if n < 100 then '0' :: '0' :: natToStr n
  else if n < 1000 then '0' :: natToStr n
  else natToStr n

/-- Rust `str::to_lowercase` (ASCII fragment). -/
def toLowerStr (s : Str) : Str := s.map Char.toLower

/-- Byte-lexicographic strict order on strings (Rust's `String: Ord`). -/
def strLtB : Str → Str → Bool
  | [], [] => false
  | [], _ :: _ => true
  | _ :: _, [] => false
  | a :: as, b :: bs =>
    if a.val < b.val then true
    else if b.val < a.val then false
    else strLtB as bs

/-- Stable insertion into an ascending sorted list of strings. -/
def insertStr (x : Str) : List Str → List Str
  | [] => [x]
  | y :: ys => if strLtB y x then y :: insertStr x ys else x :: y :: ys

/-- Ascending stable sort of strings (`Vec<String>::sort`). -/
def sortStrs : List Str → List Str
  | [] => []
  | x :: xs => insertStr x (sortStrs xs)

/-- Outcome of running a piece of the modelled program: a value, a returned
`Err`, or a Rust panic. -/
inductive Res (α : Type) where
  | ok (a : α)
  | err (msg : Str)
  | panicked (msg : Str)
deriving DecidableEq

/-- Monadic sequencing of outcomes (`?` in Rust propagates both failure
modes). -/
def Res.bind {α β : Type} : Res α → (α → Res β) → Res β
  | .ok a, f => f a
  | .err m, _ => .err m
  | .panicked m, _ => .panicked m

/-- Map over a successful outcome. -/
def Res.map {α β : Type} (f : α → β) : Res α → Res β
  | .ok a => .ok (f a)
  | .err m => .err m
  | .panicked m => .panicked m

/-! ## A small backtracking regular-expression engine

The parser and formatter use several `regex`-crate patterns.  They are
translated into the following AST and run by a fuel-bounded backtracking
matcher with the `regex` crate's leftmost-first semantics: alternation
prefers its left branch, `star`/`opt` are greedy, `lazyStar` is lazy.
Capture groups record the matched substring. -/

inductive RE where
  | eps
  | eos
  | chr (p : Char → Bool)
  | lit (cs : Str)
  | seq (a b : RE)
  | alt (a b : RE)
  | star (a : RE)
  | lazyStar (a : RE)
  | opt (a : RE)
  | group (n : Nat) (a : RE)

/-- Captured groups: most recent first. -/
abbrev Caps := List (Nat × Str)

/-- Fuel-bounded continuation-passing matcher.  Fuel bounds the recursion
depth (each `star`/`lazyStar` iteration and each subpattern descent consumes
one unit); the patterns below never exhaust the fuel used at call sites. -/
def reRun : Nat → RE → Str → Caps → (Str → Caps → Option Caps) → Option Caps
  | 0, _, _, _, _ => none
  | _ + 1, .eps, s, caps, k => k s caps
  | _ + 1, .eos, s, caps, k => if s.isEmpty then k s caps else none
  | _ + 1, .chr p, s, caps, k =>
    match s with
    | c :: rest => if p c then k rest caps else none
    | [] => none
  | _ + 1, .lit cs, s, caps, k =>
    if cs.isPrefixOf s then k (s.drop cs.length) caps else none
  | f + 1, .seq a b, s, caps, k =>
    reRun f a s caps (fun s' c' => reRun f b s' c' k)
  | f + 1, .alt a b, s, caps, k =>
    match reRun f a s caps k with
    | some r => some r
    | none => reRun f b s caps k
  | f + 1, .star a, s, caps, k =>
    match reRun f a s caps
        (fun s' c' => if s'.length < s.length then reRun f (.star a) s' c' k else none) with
    | some r => some r
    | none => k s caps
  | f + 1, .lazyStar a, s, caps, k =>
    match k s caps with
    | some r => some r
    | none =>
      reRun f a s caps
        (fun s' c' => if s'.length < s.length then reRun f (.lazyStar a) s' c' k else none)
  | f + 1, .opt a, s, caps, k =>
    match reRun f a s caps k with
    | some r => some r
    | none => k s caps
  | f + 1, .group n a, s, caps, k =>
    reRun f a s caps (fun s' c' => k s' ((n, s.take (s.length - s'.length)) :: c'))

/-- One or more repetitions, greedy (`+`). -/
def RE.plus (a : RE) : RE := .seq a (.star a)

/-- Fuel used by all pattern runs. -/
def reFuel : Nat := 5000

/-- Anchored match at the start of the string. -/
def reMatch0 (r : RE) (s : Str) : Option Caps :=
  reRun reFuel r s [] (fun _ c => some c)

/-- Unanchored leftmost search. -/
def reSearchGo (r : RE) : Str → Option Caps
  | [] => reMatch0 r []
  | s@(_ :: rest) =>
    match reMatch0 r s with
    | some c => some c
    | none => reSearchGo r rest

/-- Model of `Regex::captures`: leftmost match, with captured groups. -/
def reSearch (r : RE) (s : Str) : Option Caps := reSearchGo r s

/-- Look up a capture group (most recent match wins). -/
def capGet (caps : Caps) (n : Nat) : Option Str :=
  (caps.find? (fun p => p.1 == n)).map (·.2)

/-- Model of `\d` of the `regex` crate. -/
def reDigit : RE := .chr Char.isDigit

/-- Model of `\s` of the `regex` crate. -/
def reWs : RE := .chr isRegexWs

/-- Model of `.` of the `regex` crate (anything but a newline). -/
def reAnyNoNl : RE := .chr (fun c => !(c == '\n'))

/-- Model of `\d{1,2}`, greedy. -/
def reD12 : RE := .seq reDigit (.opt reDigit)

/-- Model of `[\d]{4}-[\d]{1,2}-[\d]{1,2}`. -/
def reDatePart : RE :=
  .seq reDigit (.seq reDigit (.seq reDigit (.seq reDigit
    (.seq (.lit ['-']) (.seq reD12 (.seq (.lit ['-']) reD12))))))

/-- Model of `(\s+\[yanked\])?`. -/
def reYankedOpt : RE := .opt (.seq (RE.plus reWs) (.lit "[yanked]".toList))

/-- Model of `\[?([^\]]+)\]?\s*-\s*([\d]{4}-[\d]{1,2}-[\d]{1,2})(\s+\[yanked\])?$`,
the dated release-heading pattern of `Parser::parse_releases`. -/
def releaseRE : RE :=
  .seq (.opt (.lit ['[']))
    (.seq (.group 1 (RE.plus (.chr (fun c => !(c == ']')))))
      (.seq (.opt (.lit [']']))
        (.seq (.star reWs)
          (.seq (.lit ['-'])
            (.seq (.star reWs)
              (.seq (.group 2 reDatePart) (.seq reYankedOpt .eos)))))))

/-- Model of `\[?([^\]]+)\]?\s*-\s*unreleased(\s+\[yanked\])?$`. -/
def unreleasedRE : RE :=
  .seq (.opt (.lit ['[']))
    (.seq (.group 1 (RE.plus (.chr (fun c => !(c == ']')))))
      (.seq (.opt (.lit [']']))
        (.seq (.star reWs)
          (.seq (.lit ['-'])
            (.seq (.star reWs)
              (.seq (.lit "unreleased".toList) (.seq reYankedOpt .eos)))))))

/-- Model of `^\[.*\]\:\s*(http.*?)\/(?:-\/)?compare\/.*$`, the compare-link shape of
`Parser::parse_links` (anchored). -/
def releaseLinkRE : RE :=
  .seq (.lit ['['])
    (.seq (.star reAnyNoNl)
      (.seq (.lit "]:".toList)
        (.seq (.star reWs)
          (.seq (.group 1 (.seq (.lit "http".toList) (.lazyStar reAnyNoNl)))
            (.seq (.lit ['/'])
              (.seq (.opt (.lit "-/".toList))
                (.seq (.lit "compare/".toList) (.seq (.star reAnyNoNl) .eos))))))))

/-- Model of `markdownlint-disable(( MD\d{3})+)`, the lint-directive content
pattern of `Parser::get_lint_content`. -/
def lintRE : RE :=
  .seq (.lit "markdownlint-disable".toList)
    (.group 1 (RE.plus (.seq (.lit [' '])
      (.seq (.lit "MD".toList) (.seq reDigit (.seq reDigit reDigit))))))

/-- Model of `\d+\.\d+\.\d+((-rc|-x)\.\d+)?`, the version-anchor shape used by the
formatter to drop compare links from the plain-link list. -/
def tagRE : RE :=
  .seq (RE.plus reDigit)
    (.seq (.lit ['.'])
      (.seq (RE.plus reDigit)
        (.seq (.lit ['.'])
          (.seq (RE.plus reDigit)
            (.opt (.seq (.alt (.lit "-rc".toList) (.lit "-x".toList))
              (.seq (.lit ['.']) (RE.plus reDigit))))))))

/-! ## Line classifiers of the tokenizer

`extract_tokens` classifies each raw line.  Three of its patterns are simple
enough to translate directly (they are anchored and structural); the
translations below implement exactly the same languages as the source
patterns `^\[.*\]\:\s*http.*$`, `^\[.*\]\:$`, `^<!--(.*)-->$` and the
search `\s+http.*$` on single lines (which never contain `'\n'`). -/

/-- Scan for `]:` followed by optional whitespace and `http`, at any
position (the `.*` before `\]` may contain anything, `]` included). -/
def hasLinkTail : Str → Bool
  | [] => false
  | s@(_ :: rest) =>
    ("]:".toList.isPrefixOf s &&
      "http".toList.isPrefixOf ((s.drop 2).dropWhile isRegexWs)) ||
    hasLinkTail rest

/-- Model of `^\[.*\]\:\s*http.*$` on a single line. -/
def linkLineB (s : Str) : Bool :=
  match s with
  | c :: rest => ('[' == c) && hasLinkTail rest
  | [] => false

/-- Model of `^\[.*\]\:$` on a single line. -/
def linkRefB (s : Str) : Bool :=
  "[".toList.isPrefixOf s && "]:".toList.isSuffixOf s && decide (3 ≤ s.length)

/-- Model of `^<!--(.*)-->$` on a single line, returning the capture. -/
def commentCapture (s : Str) : Option Str :=
  if "<!--".toList.isPrefixOf s && "-->".toList.isSuffixOf s && decide (7 ≤ s.length) then
    some ((s.drop 4).take (s.length - 7))
  else none

/-- Search for `\s+http` (`\s+http.*$` always succeeds to the right on a
single line). -/
def wsHttpB : Str → Bool
  | [] => false
  | c :: rest => (isRegexWs c && "http".toList.isPrefixOf rest) || wsHttpB rest

/-! ## Missing `src/utils.rs`

The repository's `lib.rs` declares `mod utils` but the file is not among the
provided sources; only its call sites and the spec describe it.  The four
helpers below are therefore spec-modelled. -/

/-- Modelled from the spec: `utils::substring` is absent from the provided
sources.  Call sites (`extract_tokens` stripping `# `/`## `/`### `/`-`
prefixes into trimmed heading/item text, `print_changes` restoring `- `)
and the spec's token examples require it to drop the first `n` characters
and trim surrounding whitespace. -/
def substringU (s : Str) (n : Nat) : Str := trimStr (s.drop n)

/-- Modelled from the spec: `utils::is_empty_str` is absent from the
provided sources; the spec's "blank" lines (§4.1 post-processing) are
whitespace-only lines. -/
def isEmptyStrU (s : Str) : Bool := (trimStr s).isEmpty

/-- Modelled from the spec: `utils::is_empty_str_vec` is absent from the
provided sources; per spec §4.1 a token is dropped when its content lines
are all blank. -/
def isEmptyStrVecU (v : List Str) : Bool := v.all isEmptyStrU

/-- Modelled from the spec: `utils::get_release_url` is absent from the
provided sources; spec §4.5 calls it the "release-URL for tag". -/
def get_release_url (repo tag : Str) : Str :=
  repo ++ "/releases/tag/".toList ++ tag

/-- Modelled from the spec: `utils::get_compare_url` is absent from the
provided sources; spec §4.2/§4.5 give the compare-URL shape
`<base>/compare/...` between two refs. -/
def get_compare_url (repo a b : Str) : Str :=
  repo ++ "/compare/".toList ++ a ++ "...".toList ++ b

/-! ## Tokens and the tokenizer -/

inductive TokenKind where
  | h1 | h2 | h3 | li | p | link | flag | hr | lint
deriving DecidableEq

/-- Model of `Display for TokenKind`. -/
def TokenKind.display : TokenKind → Str
  | .h1 => "Heading 1".toList
  | .h2 => "Heading 2".toList
  | .h3 => "Heading 3".toList
  | .li => "List Item".toList
  | .p => "Paragraph".toList
  | .link => "Link".toList
  | .flag => "Flag".toList
  | .hr => "Horizontal Rule".toList
  | .lint => "Lint".toList

structure Token where
  line : Nat
  kind : TokenKind
  content : List Str
deriving DecidableEq

/-- The line-classification pass of `extract_tokens`: one token per
surviving line, with the `empty_next_line` state blanking the line after a
two-line link-reference definition. -/
def extractGo : Nat → Bool → List Str → List Token
  | _, _, [] => []
  | ln, blank, l :: rest =>
    let line := if blank then [] else l
    if "---".toList.isPrefixOf line then
      ⟨ln, .hr, [['-']]⟩ :: extractGo (ln + 1) false rest
    else if "# ".toList.isPrefixOf line then
      ⟨ln, .h1, [substringU line 1]⟩ :: extractGo (ln + 1) false rest
    else if "## ".toList.isPrefixOf line then
      ⟨ln, .h2, [substringU line 2]⟩ :: extractGo (ln + 1) false rest
    else if "### ".toList.isPrefixOf line then
      ⟨ln, .h3, [substringU line 3]⟩ :: extractGo (ln + 1) false rest
    else if "-".toList.isPrefixOf line || "*".toList.isPrefixOf line then
      ⟨ln, .li, [substringU line 1]⟩ :: extractGo (ln + 1) false rest
    else if linkLineB line then
      ⟨ln, .link, [trimStr line]⟩ :: extractGo (ln + 1) false rest
    else if linkRefB line then
      match rest.head? with
      | some nxt =>
        if wsHttpB nxt then
          ⟨ln, .link, [trimStr line ++ '\n' :: trimEndWs nxt]⟩ :: extractGo (ln + 1) true rest
        else extractGo (ln + 1) false rest
      | none => extractGo (ln + 1) false rest
    else
      match commentCapture line with
      | some inner =>
        let inner := trimStr inner
        if "markdownlint-disable".toList.isPrefixOf inner then
          ⟨ln, .lint, [inner]⟩ :: extractGo (ln + 1) false rest
        else
          ⟨ln, .flag, [inner]⟩ :: extractGo (ln + 1) false rest
      | none => ⟨ln, .p, [trimEndWs line]⟩ :: extractGo (ln + 1) false rest

/-- Model of `extract_tokens`. -/
def extract_tokens (md : Str) : List Token :=
  extractGo 1 false (splitLines (trimStr md))

/-- The compact-detection loop of `tokenize`.  For each H1 token it reads
`tokens[idx + 1]` without a bounds check: when the H1 token is last this is
an out-of-bounds panic, modelled by `Res.panicked`. -/
def detectGo (len : Nat) : List Token → Nat → Res Bool
  | [], _ => .ok false
  | t :: rest, idx =>
    if t.kind = .h1 then
      match rest.head? with
      | none =>
        .panicked ("index out of bounds: the len is ".toList ++ natToStr len ++
          " but the index is ".toList ++ natToStr (idx + 1))
      | some nxt =>
        if (nxt.content.headD []).isEmpty then detectGo len rest (idx + 1)
        else .ok true
    else detectGo len rest (idx + 1)

/-- The compact flag computed by `tokenize` over the raw token list. -/
def detectCompact (toks : List Token) : Res Bool := detectGo toks.length toks 0

/-- Model of `Regex::replace` of `^\s\s` with the empty string: strip the first two
leading whitespace characters when both are present. -/
def strip2 (s : Str) : Str :=
  match s with
  | a :: b :: rest => if isRegexWs a && isRegexWs b then rest else s
  | _ => s

/-- The continuation-merging pass of `tokenize`, accumulator reversed.
A paragraph token merges into an immediately preceding paragraph token, or
into an immediately preceding list-item token with `strip2` applied; the
first token is always pushed unchanged. -/
def mergeGo : List Token → List Token → List Token
  | acc, [] => acc.reverse
  | acc, t :: rest =>
    let c := t.content.headD []
    match acc with
    | prev :: accRest =>
      if t.kind = .p ∧ prev.kind = .p then
        mergeGo ({ prev with content := prev.content ++ [c] } :: accRest) rest
      else if t.kind = .p ∧ prev.kind = .li then
        mergeGo ({ prev with content := prev.content ++ [strip2 c] } :: accRest) rest
      else
        mergeGo (⟨t.line, t.kind, [c]⟩ :: prev :: accRest) rest
    | [] => mergeGo [⟨t.line, t.kind, [c]⟩] rest

/-- Pop trailing blank lines, then leading blank lines, from a token's
content (run only on tokens that are not entirely blank). -/
def trimBlankEdges (v : List Str) : List Str :=
  ((v.reverse.dropWhile isEmptyStrU).reverse).dropWhile isEmptyStrU

/-- Final filtering pass of `tokenize`: drop all-blank tokens, trim blank
edge lines of the rest. -/
def postTokens (toks : List Token) : List Token :=
  (toks.filter fun t => !(isEmptyStrVecU t.content)).map
    fun t => { t with content := trimBlankEdges t.content }

/-- Model of `tokenize`. -/
def tokenize (md : Str) : Res (Bool × List Token) :=
  let toks := extract_tokens md
  match detectCompact toks with
  | .ok compact => .ok (compact, postTokens (mergeGo [] toks))
  | .err m => .err m
  | .panicked m => .panicked m

/-! ## Semantic versions and calendar dates -/

/-- Model of `semver::Version`: numeric core plus raw pre-release and build-metadata
strings (the crate compares these fields structurally for equality). -/
structure Version where
  major : Nat
  minor : Nat
  patch : Nat
  pre : Str
  build : Str
deriving DecidableEq

/-- Numeric value of a digit run. -/
def strToNat (ds : Str) : Nat := ds.foldl (fun n c => n * 10 + (c.toNat - 48)) 0

/-- Split a leading digit run. -/
def spanDigits (s : Str) : Str × Str := (s.takeWhile Char.isDigit, s.dropWhile Char.isDigit)

/-- A semver numeric identifier: non-empty digits, no leading zero. -/
def parseNumId (s : Str) : Res (Nat × Str) :=
  let (ds, rest) := spanDigits s
  match ds with
  | [] => .err "unexpected character while parsing version number".toList
  | ['0'] => .ok (0, rest)
  | '0' :: _ => .err "invalid leading zero in version number".toList
  | _ => .ok (strToNat ds, rest)

/-- Character allowed inside semver pre-release/build identifiers. -/
def isIdentChar (c : Char) : Bool := c.isAlphanum || c = '-'

/-- Validate a dot-separated identifier run (`strictNum`: reject numeric
identifiers with leading zeros, as semver does for pre-release parts). -/
def validIdents (strictNum : Bool) (s : Str) : Bool :=
  (splitOnChar '.' s).all fun part =>
    !part.isEmpty && part.all isIdentChar &&
    (!strictNum || !(part.all Char.isDigit) ||
      (match part with
       | '0' :: _ :: _ => false
       | _ => true))

/-- Model of `semver::Version::parse`: `MAJOR.MINOR.PATCH` with optional `-pre` and
`+build`.  Error texts are abbreviated; no claim depends on them. -/
def parseVersion (s : Str) : Res Version :=
  match parseNumId s with
  | .ok (major, r1) =>
    match r1 with
    | '.' :: r1' =>
      match parseNumId r1' with
      | .ok (minor, r2) =>
        match r2 with
        | '.' :: r2' =>
          match parseNumId r2' with
          | .ok (patch, r3) =>
            let (pre, r4) :=
              match r3 with
              | '-' :: t =>
                let p := t.takeWhile (fun c => !(c == '+'))
                (p, t.drop p.length)
              | _ => ([], r3)
            let (build, r5) :=
              match r4 with
              | '+' :: t => (t, ([] : Str))
              | _ => ([], r4)
            if !r5.isEmpty then .err "unexpected trailing characters in version".toList
            else if !pre.isEmpty && !(validIdents true pre) then
              .err "invalid pre-release identifier".toList
            else if (match r3 with | '-' :: _ => pre.isEmpty | _ => false) then
              .err "empty pre-release identifier".toList
            else if !build.isEmpty && !(validIdents false build) then
              .err "invalid build metadata".toList
            else if (match r4 with | '+' :: _ => build.isEmpty | _ => false) then
              .err "empty build metadata".toList
            else .ok ⟨major, minor, patch, pre, build⟩
          | .err m => .err m
          | .panicked m => .panicked m
        | _ => .err "expected dot before patch version".toList
      | .err m => .err m
      | .panicked m => .panicked m
    | _ => .err "expected dot before minor version".toList
  | .err m => .err m
  | .panicked m => .panicked m

/-- Model of `Display for semver::Version`. -/
def versionStr (v : Version) : Str :=
  natToStr v.major ++ '.' :: natToStr v.minor ++ '.' :: natToStr v.patch ++
  (if v.pre.isEmpty then [] else '-' :: v.pre) ++
  (if v.build.isEmpty then [] else '+' :: v.build)

/-- Model of `chrono::NaiveDate`, restricted to the non-negative years reachable from
`%Y-%m-%d` parsing. -/
structure CalDate where
  year : Nat
  month : Nat
  day : Nat
deriving DecidableEq

def isLeapYear (y : Nat) : Bool := (y % 4 = 0 && !(y % 100 = 0)) || y % 400 = 0

def daysInMonth (y m : Nat) : Nat :=
  if m = 2 then (if isLeapYear y then 29 else 28)
  else if m = 4 || m = 6 || m = 9 || m = 11 then 30
  else 31

/-- Model of `NaiveDate::parse_from_str(s, "%Y-%m-%d")` on the digit-shaped inputs
allowed by the release-heading pattern: three dash-separated digit runs
forming a real calendar date. -/
def parseDateStr (s : Str) : Res CalDate :=
  match splitOnChar '-' s with
  | [ys, ms, ds] =>
    if ys.isEmpty || ms.isEmpty || ds.isEmpty ||
        !(ys.all Char.isDigit) || !(ms.all Char.isDigit) || !(ds.all Char.isDigit) then
      .err "input contains invalid characters".toList
    else
      let y := strToNat ys
      let m := strToNat ms
      let d := strToNat ds
      if 1 ≤ m && m ≤ 12 && 1 ≤ d && d ≤ daysInMonth y m then .ok ⟨y, m, d⟩
      else .err "input is out of range".toList
  | _ => .err "input contains invalid characters".toList

/-- Model of `NaiveDate::format("%Y-%m-%d")`. -/
def dateStr (d : CalDate) : Str := pad4 d.year ++ '-' :: pad2 d.month ++ '-' :: pad2 d.day

/-! ## Changes, releases, links, changelog -/

inductive ChangeKind where
  | added | changed | deprecated | removed | fixed | security
deriving DecidableEq

/-- Model of `ChangeKind::from_str` (lower-cases its input itself). -/
def changeKindFromStr (s : Str) : Res ChangeKind :=
  let l := toLowerStr s
  if l = "added".toList then .ok .added
  else if l = "changed".toList then .ok .changed
  else if l = "deprecated".toList then .ok .deprecated
  else if l = "removed".toList then .ok .removed
  else if l = "fixed".toList then .ok .fixed
  else if l = "security".toList then .ok .security
  else .err ("Unknown change type: ".toList ++ s)

structure Changes where
  added : List Str
  changed : List Str
  deprecated : List Str
  removed : List Str
  fixed : List Str
  security : List Str
  compact : Bool
deriving DecidableEq

/-- Model of `Changes::default()`. -/
def Changes.init : Changes := ⟨[], [], [], [], [], [], false⟩

/-- Model of `Changes::add`. -/
def Changes.add (cs : Changes) (k : ChangeKind) (c : Str) : Changes :=
  match k with
  | .added => { cs with added := cs.added ++ [c] }
  | .changed => { cs with changed := cs.changed ++ [c] }
  | .deprecated => { cs with deprecated := cs.deprecated ++ [c] }
  | .removed => { cs with removed := cs.removed ++ [c] }
  | .fixed => { cs with fixed := cs.fixed ++ [c] }
  | .security => { cs with security := cs.security ++ [c] }

/-- Model of `Changes::is_empty`. -/
def Changes.isEmptyC (cs : Changes) : Bool :=
  cs.added.isEmpty && cs.changed.isEmpty && cs.deprecated.isEmpty &&
  cs.removed.isEmpty && cs.fixed.isEmpty && cs.security.isEmpty

structure Release where
  version : Option Version
  yanked : Bool
  description : Option Str
  date : Option CalDate
  changes : Changes
  compact : Bool
deriving DecidableEq

structure Link where
  anchor : Str
  url : Str
deriving DecidableEq

/-- Model of `Link::parse`: split at the first `": "`; anchor is the left part with
all square brackets removed, url the right part. -/
def splitOnceColonSp : Str → Option (Str × Str)
  | [] => none
  | s@(c :: rest) =>
    if ": ".toList.isPrefixOf s then some ([], s.drop 2)
    else
      match splitOnceColonSp rest with
      | some (a, b) => some (c :: a, b)
      | none => none

def Link.parse (line : Str) : Res Link :=
  match splitOnceColonSp line with
  | some (a, u) => .ok ⟨a.filter (fun c => !(c == '[') && !(c == ']')), u⟩
  | none => .err "Missing url".toList

/-- Model of `Display for Link`. -/
def linkStr (l : Link) : Str := '[' :: l.anchor ++ "]: ".toList ++ l.url

structure Changelog where
  lint : Option (List Str)
  flag : Option Str
  title : Option Str
  description : Option Str
  head : Str
  footer : Option Str
  url : Option Str
  releases : List Release
  links : List Link
  tagPfx : Option Str
  compact : Bool
deriving DecidableEq

/-! ## Release ordering

`Release: Ord` compares by `date` only (`Option<NaiveDate>`: `None` is
least, `Some` dates lexicographic by year, month, day).  Rust's
`sort_by(|a, b| b.cmp(a))` is a stable descending sort; the stable
insertion sort below produces the same sequence (stable sorts agree). -/

/-- Strict "earlier than" on optional dates. -/
def optDateLtB : Option CalDate → Option CalDate → Bool
  | none, none => false
  | none, some _ => true
  | some _, none => false
  | some x, some y =>
    decide (x.year < y.year ∨ (x.year = y.year ∧
      (x.month < y.month ∨ (x.month = y.month ∧ x.day < y.day))))

/-- Stable insertion for a descending-by-date sort: `r` goes before the
first element whose date it is not earlier than. -/
def insertRel (r : Release) : List Release → List Release
  | [] => [r]
  | x :: xs => if optDateLtB r.date x.date then x :: insertRel r xs else r :: x :: xs

/-- Stable descending-by-date insertion sort. -/
def isortRel : List Release → List Release
  | [] => []
  | r :: rs => insertRel r (isortRel rs)

/-- The Unreleased test used by `sort_releases` and `get_unreleased`:
both `version` and `date` absent. -/
def unreleasedP (r : Release) : Bool := r.version.isNone && r.date.isNone

/-- Remove the first element satisfying `p`, returning it and the rest. -/
def extractFirst (p : Release → Bool) : List Release → Option Release × List Release
  | [] => (none, [])
  | x :: xs =>
    if p x then (some x, xs)
    else
      let (u, rest) := extractFirst p xs
      (u, x :: rest)

/-- Model of `sort_releases` (identical logic in `ChangelogBuilder` and
`Changelog`): pull out the first fully-dateless-and-versionless release,
sort the rest descending by date, re-insert it at index 0. -/
def sort_releases (rs : List Release) : List Release :=
  match extractFirst unreleasedP rs with
  | (some u, rest) => u :: isortRel rest
  | (none, _) => isortRel rs

/-! ## Builders

`derive_builder` stores each field as an `Option` over its type and falls
back to the field default on `build` (all fields here have defaults, so
`build` cannot fail). -/

structure ReleaseB where
  version : Option (Option Version)
  yanked : Option Bool
  description : Option (Option Str)
  date : Option (Option CalDate)
  changes : Option Changes
  compact : Option Bool

/-- Model of `ReleaseBuilder::default()`. -/
def ReleaseB.init : ReleaseB := ⟨none, none, none, none, none, none⟩

/-- Model of `ReleaseBuilder::build()` (never fails: every field has a default). -/
def ReleaseB.build (b : ReleaseB) : Release :=
  ⟨b.version.getD none, b.yanked.getD false, b.description.getD none,
   b.date.getD none, b.changes.getD Changes.init, b.compact.getD false⟩

/-- Model of `ReleaseBuilder::add_change`. -/
def ReleaseB.addChange (b : ReleaseB) (kindTok changeTok : Token) : Res ReleaseB :=
  let cs := b.changes.getD Changes.init
  let kindStr := toLowerStr (joinNl kindTok.content)
  match changeKindFromStr kindStr with
  | .ok k => .ok { b with changes := some (cs.add k (joinNl changeTok.content)) }
  | .err e =>
    .err ("Failed to parse change kind at line: ".toList ++ natToStr kindTok.line ++
      ", content: `".toList ++ kindStr ++ "`, error: \"".toList ++ e ++ "\"".toList)
  | .panicked m => .panicked m

structure CB where
  lint : Option (Option (List Str))
  flag : Option (Option Str)
  title : Option (Option Str)
  description : Option (Option Str)
  head : Option Str
  footer : Option (Option Str)
  url : Option (Option Str)
  releases : Option (List Release)
  links : Option (List Link)
  tagPfx : Option (Option Str)
  compact : Option Bool

/-- Model of `ChangelogBuilder::default()`. -/
def CB.init : CB := ⟨none, none, none, none, none, none, none, none, none, none, none⟩

/-- Model of `ChangelogBuilder::build()` (never fails: every field has a default;
`head` defaults to `"HEAD"`, `compact` to `false`). -/
def CB.build (b : CB) : Changelog :=
  ⟨b.lint.getD none, b.flag.getD none, b.title.getD none, b.description.getD none,
   b.head.getD "HEAD".toList, b.footer.getD none, b.url.getD none,
   b.releases.getD [], b.links.getD [], b.tagPfx.getD none, b.compact.getD false⟩

/-- Model of `ChangelogBuilder::releases`: store, then sort. -/
def CB.setReleases (b : CB) (rs : List Release) : CB :=
  { b with releases := some (sort_releases rs) }

/-- Model of `ChangelogBuilder::links`: parse every link line; a failure wraps into
the `"Failed to parse links"` context. -/
def linksParse : List Str → Res (List Link)
  | [] => .ok []
  | l :: rest =>
    match Link.parse l with
    | .ok lk =>
      match linksParse rest with
      | .ok lks => .ok (lk :: lks)
      | .err m => .err m
      | .panicked m => .panicked m
    | .err _ => .err "Failed to parse links".toList
    | .panicked m => .panicked m

def CB.setLinks (b : CB) (ls : List Str) : Res CB :=
  match linksParse ls with
  | .ok lks => .ok { b with links := some lks }
  | .err m => .err m
  | .panicked m => .panicked m

/-- Model of `ChangelogBuilder::compact`: setting `true` replaces the lint set with
exactly `{MD022, MD032}`; setting `false` clears the builder's lint field. -/
def CB.setCompact (b : CB) (c : Bool) : CB :=
  { b with
      compact := some c
      lint := if c then some (some ["MD022".toList, "MD032".toList]) else none }

/-! ## Changelog mutators -/

/-- Model of `HashSet::insert` modelled on a duplicate-free list. -/
def lintInsert (l : List Str) (x : Str) : List Str :=
  if l.contains x then l else l ++ [x]

/-- Model of `Changelog::disable_lint`: insert into the set, creating it if absent. -/
def Changelog.disable_lint (c : Changelog) (x : Str) : Changelog :=
  { c with lint := some (lintInsert (c.lint.getD []) x) }

/-- Model of `Changelog::enable_lint`: remove from the set; an emptied set becomes
absent; an absent set stays absent. -/
def Changelog.enable_lint (c : Changelog) (x : Str) : Changelog :=
  match c.lint with
  | some d =>
    let d' := d.filter fun y => !(y == x)
    { c with lint := if d'.isEmpty then none else some d' }
  | none => c

/-- Model of `Changelog::set_compact`. -/
def Changelog.set_compact (c : Changelog) : Changelog :=
  (({ c with compact := true }).disable_lint "MD022".toList).disable_lint "MD032".toList

/-- Model of `Changelog::unset_compact`. -/
def Changelog.unset_compact (c : Changelog) : Changelog :=
  (({ c with compact := false }).enable_lint "MD022".toList).enable_lint "MD032".toList

/-- Model of `Changelog::add_release`: insert at index 0, then `sort_releases`. -/
def Changelog.add_release (c : Changelog) (r : Release) : Changelog :=
  { c with releases := sort_releases (r :: c.releases) }

/-- Model of `Changelog::tag_name`. -/
def Changelog.tag_name (c : Changelog) (v : Str) : Str :=
  match c.tagPfx with
  | some t => t ++ v
  | none => v

/-- Model of `Changelog::compare_link(current, previous)`. -/
def Changelog.compare_link (c : Changelog) (current : Release) (previous : Option Release) :
    Res (Option Link) :=
  match c.url with
  | none => .err "Missing repo URL".toList
  | some repo =>
    match previous with
    | none =>
      match current.version with
      | none => .err "Missing version for current release".toList
      | some v =>
        .ok (some ⟨versionStr v, get_release_url repo (c.tag_name (versionStr v))⟩)
    | some prev =>
      if current.date.isNone || current.version.isNone then
        match prev.version with
        | none => .err "Missing version for previous release".toList
        | some pv =>
          .ok (some ⟨"Unreleased".toList,
            get_compare_url repo (c.tag_name (versionStr pv)) c.head⟩)
      else
        match current.version with
        | none => .err "Missing version for current release".toList
        | some cv =>
          match prev.version with
          | none => .err "Missing version for previous release".toList
          | some pv =>
            .ok (some ⟨versionStr cv,
              get_compare_url repo (c.tag_name (versionStr pv)) (c.tag_name (versionStr cv))⟩)

/-- Model of `Release::compare_link`: locate this release, search forward for the
nearest dated release, defer to `Changelog::compare_link` unless both
searches come up empty-handed for an Unreleased-like release. -/
def Release.compare_link (r : Release) (c : Changelog) : Res (Option Link) :=
  match c.releases.findIdx? (fun x => x == r) with
  | none => .err "Release not found".toList
  | some i =>
    let previous := (c.releases.drop (i + 1)).find? fun p => p.date.isSome
    if previous.isNone && (r.date.isNone || r.version.isNone) then .ok none
    else c.compare_link r previous

/-! ## Parser -/

structure ParseOpts where
  url : Option Str
  tagPfx : Option Str
  head : Option Str

/-- Model of `ChangelogParseOptions::default()`. -/
def ParseOpts.init : ParseOpts := ⟨none, none, none⟩

/-- Model of `Parser::get_content`: peek at the cursor; consume only on a kind
match. -/
def get_content (kinds : List TokenKind) (toks : List Token) :
    Option Str × Option Token × List Token :=
  match toks with
  | [] => (none, none, [])
  | t :: rest =>
    if kinds.contains t.kind then (some (joinNl t.content), some t, rest)
    else (none, some t, t :: rest)

/-- Loop body of `Parser::get_text_content`: consume paragraph and
list-item tokens, re-prefixing list items with `"- "`. -/
def gtcGo (acc : List Str) : List Token → List Str × List Token
  | [] => (acc, [])
  | t :: rest =>
    if t.kind = .p ∨ t.kind = .li then
      gtcGo (acc ++ [if t.kind = .li then "- ".toList ++ joinNl t.content else joinNl t.content]) rest
    else (acc, t :: rest)

/-- Model of `Parser::get_text_content`. -/
def get_text_content (toks : List Token) : Option Str × List Token :=
  let pr := gtcGo [] toks
  (if pr.1.isEmpty then none else some (joinNl pr.1), pr.2)

/-- Keep-first de-duplication (the `HashSet` built from the lint codes). -/
def dedupGo (seen : List Str) : List Str → List Str
  | [] => []
  | x :: xs => if seen.contains x then dedupGo seen xs else x :: dedupGo (x :: seen) xs

def dedupStrs (l : List Str) : List Str := dedupGo [] l

/-- Model of `Parser::get_lint_content`. -/
def get_lint_content (toks : List Token) : Res (Option (List Str) × List Token) :=
  match toks with
  | [] => .ok (none, [])
  | t :: rest =>
    if t.kind = .lint then
      match reSearch lintRE (t.content.headD []) with
      | some caps =>
        match capGet caps 1 with
        | some lints => .ok (some (dedupStrs (splitOnChar ' ' (trimStr lints))), rest)
        | none => .err "Failed to get lint content".toList
      | none => .err "Failed to get lint content".toList
    else .ok (none, toks)

/-- Release-heading processing of `Parser::parse_releases` for a single H2
token: yanked flag from a substring test, then the dated pattern, then the
unreleased branch, otherwise the hard parse error citing line, kind, raw
text and both accepted formats. -/
def releaseHeadB (t : Token) : Res ReleaseB :=
  let release := joinNl t.content
  let releaseLc := toLowerStr release
  let b0 : ReleaseB := { ReleaseB.init with yanked := some (containsSub "[yanked]".toList releaseLc) }
  match reSearch releaseRE releaseLc with
  | some caps =>
    match capGet caps 1, capGet caps 2 with
    | some g1, some g2 =>
      match parseVersion (trimStr g1) with
      | .ok v =>
        match parseDateStr (trimStr g2) with
        | .ok d => .ok { b0 with version := some (some v), date := some (some d) }
        | .err e => .err ("Failed to parse date: ".toList ++ e)
        | .panicked m => .panicked m
      | .err e => .err ("Failed to parse version: ".toList ++ e)
      | .panicked m => .panicked m
    | _, _ => .err "Failed to parse release heading captures".toList
  | none =>
    if containsSub "unreleased".toList releaseLc then
      match reSearch unreleasedRE releaseLc with
      | some caps =>
        match capGet caps 1 with
        | some g1 =>
          match parseVersion (trimStr g1) with
          | .ok v => .ok { b0 with version := some (some v) }
          | .err e => .err e
          | .panicked m => .panicked m
        | none => .ok b0
      | none => .ok b0
    else
      .err ("Failed to parse release token at line: ".toList ++ natToStr t.line ++
        ", kind: ".toList ++ t.kind.display ++ ", content: `## ".toList ++ release ++
        "`. Expected format: `## [VERSION] - [DATE]` or `## [Unreleased]`".toList)

/-- The run of list-item tokens following a change-kind heading. -/
def takeLis : List Token → List Token × List Token
  | [] => ([], [])
  | t :: rest =>
    if t.kind = .li then (t :: (takeLis rest).1, (takeLis rest).2)
    else ([], t :: rest)

theorem takeLis_len (l : List Token) : (takeLis l).2.length ≤ l.length := by
  induction l with
  | nil => simp [takeLis]
  | cons t rest ih =>
    simp only [takeLis]
    split
    · exact Nat.le_succ_of_le ih
    · simp

theorem gtcGo_len (l : List Token) : ∀ acc, ((gtcGo acc l).2).length ≤ l.length := by
  induction l with
  | nil => intro acc; simp [gtcGo]
  | cons t rest ih =>
    intro acc
    simp only [gtcGo]
    split
    · exact Nat.le_succ_of_le (ih _)
    · simp

/-- Add each list-item token under the current change-kind heading. -/
def addLis (b : ReleaseB) (kindTok : Token) : List Token → Res ReleaseB
  | [] => .ok b
  | t :: rest =>
    match b.addChange kindTok t with
    | .ok b' => addLis b' kindTok rest
    | .err m => .err m
    | .panicked m => .panicked m

/-- The nested H3/list-item loops of `Parser::parse_releases`, with fuel
bounding the iteration count.  The fuel is instantiated to the token count
and each iteration consumes at least the H3 token, so the zero-fuel
fallback is unreachable. -/
def parseH3sGo : Nat → ReleaseB → List Token → Res (ReleaseB × List Token)
  | _, b, [] => .ok (b, [])
  | 0, b, t :: rest => .ok (b, t :: rest)
  | fuel + 1, b, t :: rest =>
    if t.kind = .h3 then
      match addLis b t (takeLis rest).1 with
      | .ok b' => parseH3sGo fuel b' (takeLis rest).2
      | .err m => .err m
      | .panicked m => .panicked m
    else .ok (b, t :: rest)

def parseH3s (b : ReleaseB) (toks : List Token) : Res (ReleaseB × List Token) :=
  parseH3sGo toks.length b toks

theorem parseH3sGo_len :
    ∀ n (toks : List Token) b b' r,
      parseH3sGo n b toks = .ok (b', r) → r.length ≤ toks.length := by
  intro n
  induction n with
  | zero =>
    intro toks b b' r heq
    match toks with
    | [] =>
      simp only [parseH3sGo] at heq
      cases heq
      simp
    | t :: rest =>
      simp only [parseH3sGo] at heq
      cases heq
      simp
  | succ n ih =>
    intro toks b b' r heq
    match toks with
    | [] =>
      simp only [parseH3sGo] at heq
      cases heq
      simp
    | t :: rest =>
      simp only [parseH3sGo] at heq
      by_cases hk : t.kind = .h3
      · rw [if_pos hk] at heq
        cases hal : addLis b t (takeLis rest).1 with
        | ok b2 =>
          rw [hal] at heq
          have h1 := ih (takeLis rest).2 b2 b' r heq
          have h2 := takeLis_len rest
          simp only [List.length_cons]
          omega
        | err m => rw [hal] at heq; cases heq
        | panicked m => rw [hal] at heq; cases heq
      · rw [if_neg hk] at heq
        cases heq
        simp

/-- Model of `Parser::parse_releases`: the H2 loop, with fuel bounding the iteration
count.  Each iteration consumes the H2 token, the description run and the
change sections before recursing, so with fuel instantiated to the token
count the zero-fuel fallback is unreachable. -/
def parseRelGo : Nat → List Token → Res (List Release × List Token)
  | _, [] => .ok ([], [])
  | 0, t :: rest => .ok ([], t :: rest)
  | fuel + 1, t :: rest =>
    if t.kind = .h2 then
      match releaseHeadB t with
      | .ok b1 =>
        let b2 := { b1 with description := some (get_text_content rest).1 }
        match parseH3s b2 (get_text_content rest).2 with
        | .ok (b3, rest2) =>
          match parseRelGo fuel rest2 with
          | .ok (rs, rest3) => .ok (b3.build :: rs, rest3)
          | .err m => .err m
          | .panicked m => .panicked m
        | .err m => .err m
        | .panicked m => .panicked m
      | .err m => .err m
      | .panicked m => .panicked m
    else .ok ([], t :: rest)

def parse_releases (toks : List Token) : Res (List Release × List Token) :=
  parseRelGo toks.length toks

/-- The compare-shape test of `parse_links`: the base captured by
`release_link_regex` on a link line, if it matches (group 1 always
participates in a match of that pattern). -/
def compareBase (link : Str) : Option Str :=
  match reMatch0 releaseLinkRE link with
  | some caps => capGet caps 1
  | none => none

/-- The link-mapping loop of `Parser::parse_links`.  For each link token in
order: when no repository URL was supplied in the options, a content match
of the compare shape overwrites the builder's URL (the test is on the
options, not on the builder, so every matching link overwrites). -/
def plGo (optsUrl : Option Str) (b : CB) : List Token → CB × List Str
  | [] => (b, [])
  | t :: rest =>
    let link := joinNl t.content
    let b' :=
      if optsUrl.isNone then
        match compareBase link with
        | some base => { b with url := some (some base) }
        | none => b
      else b
    let pr := plGo optsUrl b' rest
    (pr.1, link :: pr.2)

/-- Model of `Parser::parse_links`. -/
def parse_links (optsUrl : Option Str) (b : CB) (toks : List Token) : Res CB :=
  let pr := plGo optsUrl b toks
  CB.setLinks pr.1 pr.2

/-- Model of `Parser::parse_opts`. -/
def parse_opts (b : CB) (o : ParseOpts) : CB :=
  let b1 := { b with url := some o.url, tagPfx := some o.tagPfx }
  match o.head with
  | some h => { b1 with head := some h }
  | none => b1

/-- Model of `Parser::parse_meta`. -/
def parse_meta (b : CB) (toks : List Token) : Res (CB × List Token) :=
  match get_lint_content toks with
  | .ok (lint, r1) =>
    let fl := get_content [.flag] r1
    let ti := get_content [.h1] fl.2.2
    let de := get_text_content ti.2.2
    .ok ({ b with
            lint := some lint
            flag := some fl.1
            title := some ti.1
            description := some de.1 }, de.2)
  | .err m => .err m
  | .panicked m => .panicked m

/-- Model of `Parser::parse_footer`: consume an optional horizontal-rule token; the
stored footer is that token's content (the literal `"-"`). -/
def parse_footer (b : CB) (toks : List Token) : CB × List Token :=
  let fc := get_content [.hr] toks
  ({ b with footer := some fc.1 }, fc.2.2)

/-- Model of `Parser::parse` / `Changelog::parse`: tokenize, partition out link
tokens, then run the grammar steps in order and build.  The leftover-token
message is modelled by its index/length parts (the Rust message also
debug-prints the leftover tokens). -/
def Changelog.parse (md : Str) (opts : Option ParseOpts) : Res Changelog :=
  match tokenize md with
  | .ok (compact, allToks) =>
    let links := allToks.filter fun t => t.kind == .link
    let main := allToks.filter fun t => !(t.kind == .link)
    let o := opts.getD ParseOpts.init
    let b0 := parse_opts CB.init o
    match parse_meta b0 main with
    | .ok (b1, r1) =>
      match parse_releases r1 with
      | .ok (rs, r2) =>
        let b2 := CB.setReleases b1 rs
        match parse_links o.url b2 links with
        | .ok b3 =>
          let pf := parse_footer b3 r2
          let b4 := CB.setCompact pf.1 compact
          if pf.2.isEmpty then .ok (CB.build b4)
          else
            .err ("Unexpected tokens, index: ".toList ++
              natToStr (main.length - pf.2.length) ++
              ", tokens length: ".toList ++ natToStr main.length)
        | .err m => .err m
        | .panicked m => .panicked m
      | .err m => .err m
      | .panicked m => .panicked m
    | .err m => .err m
    | .panicked m => .panicked m
  | .err m => .err m
  | .panicked m => .panicked m

/-! ## Formatter -/

/-- Model of `consts::CHANGELOG_TITLE`. -/
def CHANGELOG_TITLE : Str := "Changelog".toList

/-- Model of `consts::CHANGELOG_DESCRIPTION`. -/
def CHANGELOG_DESCRIPTION : Str :=
  ("All notable changes to this project will be documented in this file.\n\n" ++
   "The format is based on [Keep a Changelog](https://keepachangelog.com/en/1.0.0/)\n" ++
   "and this project adheres to [Semantic Versioning](https://semver.org/spec/v2.0.0.html).").toList

/-- Model of `print_changes`: one entry rendered as a `- ` first line with
continuation lines indented two spaces, trailing whitespace trimmed. -/
def entryStr (change : Str) : Str :=
  let lines := (splitLines change).map fun l => trimEndWs ("  ".toList ++ l)
  match lines with
  | [] => []
  | l0 :: restL => joinNl (("- ".toList ++ substringU l0 1) :: restL)

def printChanges (entries : List Str) : Str :=
  entries.foldl (fun out e => out ++ entryStr e ++ ['\n']) []

/-- One kind section of `Display for Changes`, threading the
`first_printed` separator state. -/
def changesSection (compact : Bool) (name : Str) (entries : List Str)
    (st : Str × Bool) : Str × Bool :=
  if entries.isEmpty then st
  else
    let out := st.1 ++ (if st.2 then ['\n'] else []) ++
      "### ".toList ++ name ++ ['\n'] ++
      (if compact then [] else ['\n']) ++
      printChanges entries ++ ['\n']
    (out, true)

/-- Model of `Display for Changes`: the six kind sections in fixed order. -/
def displayChanges (cs : Changes) : Str :=
  (changesSection cs.compact "Security".toList cs.security
    (changesSection cs.compact "Fixed".toList cs.fixed
      (changesSection cs.compact "Removed".toList cs.removed
        (changesSection cs.compact "Deprecated".toList cs.deprecated
          (changesSection cs.compact "Changed".toList cs.changed
            (changesSection cs.compact "Added".toList cs.added ([], false))))))).1

/-- Model of `Display for Release`.  A versioned release without a date maps its
error into `fmt::Error` (modelled as `Res.err`); the Unreleased heading
never carries the yanked marker. -/
def displayRelease (r : Release) : Res Str :=
  let yanked := if r.yanked then " [YANKED]".toList else []
  match r.version with
  | some v =>
    match r.date with
    | none => .err "fmt::Error".toList
    | some d =>
      .ok ("## [".toList ++ versionStr v ++ "] - ".toList ++ dateStr d ++ yanked ++ ['\n'] ++
        (if r.compact then [] else ['\n']) ++
        (match r.description with
         | some dsc => dsc ++ ['\n']
         | none => []) ++
        (if !(r.changes.isEmptyC) then displayChanges { r.changes with compact := r.compact }
         else if r.compact then ['\n'] else []))
  | none =>
    .ok ("## [Unreleased]".toList ++ ['\n'] ++
      (if r.compact then [] else ['\n']) ++
      (match r.description with
       | some dsc => dsc ++ ['\n']
       | none => []) ++
      (if !(r.changes.isEmptyC) then displayChanges { r.changes with compact := r.compact }
       else if r.compact then ['\n'] else []))

/-- The release loop of `Display for Changelog`: each release rendered with
the document's compact flag. -/
def releasesOut (compact : Bool) : List Release → Res Str
  | [] => .ok []
  | r :: rs =>
    match displayRelease { r with compact := compact } with
    | .ok s =>
      match releasesOut compact rs with
      | .ok s' => .ok (s ++ s')
      | .err m => .err m
      | .panicked m => .panicked m
    | .err m => .err m
    | .panicked m => .panicked m

/-- The anchors excluded from the plain-link list: semantic-version shapes
and anchors containing `"Unreleased"`. -/
def isCompareAnchor (a : Str) : Bool :=
  (reSearch tagRE a).isSome || containsSub "Unreleased".toList a

/-- The compare-link loop of `Display for Changelog`: a failing
`compare_link` aborts through `.expect`, i.e. a panic. -/
def compareLinksOut (c : Changelog) : List Release → Res Str
  | [] => .ok []
  | r :: rs =>
    match r.compare_link c with
    | .ok (some l) =>
      match compareLinksOut c rs with
      | .ok s => .ok (linkStr l ++ ['\n'] ++ s)
      | .err m => .err m
      | .panicked m => .panicked m
    | .ok none =>
      match compareLinksOut c rs with
      | .ok s => .ok s
      | .err m => .err m
      | .panicked m => .panicked m
    | .err e => .panicked ("Failed to get compare link: ".toList ++ e)
    | .panicked m => .panicked m

/-- Model of `Display for Changelog`. -/
def displayChangelog (c : Changelog) : Res Str :=
  let header :=
    (match c.lint with
     | some l => "<!-- markdownlint-disable ".toList ++ joinSp (sortStrs l) ++ " -->\n".toList
     | none => []) ++
    (match c.flag with
     | some fl => "<!-- ".toList ++ fl ++ " -->\n".toList
     | none => []) ++
    "# ".toList ++ (c.title.getD CHANGELOG_TITLE) ++ ['\n'] ++
    (if c.compact then [] else ['\n']) ++
    (match c.description with
     | some d => trimStr d
     | none => CHANGELOG_DESCRIPTION) ++ "\n\n".toList
  match releasesOut c.compact c.releases with
  | .ok rel =>
    let ncl := c.links.filter fun l => !(isCompareAnchor l.anchor)
    let linksPart :=
      (ncl.foldl (fun out l => out ++ '\n' :: linkStr l) []) ++
      (if ncl.isEmpty then [] else ['\n'])
    match compareLinksOut c c.releases with
    | .ok cmp =>
      .ok (header ++ rel ++ linksPart ++ cmp ++
        (match c.footer with
         | some f => "---\n".toList ++ f ++ ['\n']
         | none => []))
    | .err m => .err m
    | .panicked m => .panicked m
  | .err m => .err m
  | .panicked m => .panicked m

/-- Strip every trailing newline (`trim_end_matches('\n')`). -/
def trimEndNlAll (s : Str) : Str := (s.reverse.dropWhile (fun c => c == '\n')).reverse

/-- Model of `Changelog::file_contents`: render, one collapse pass of
`"\n\n\n" -> "\n\n"`, strip trailing newlines, append exactly one.
`to_string` on a failing `Display` is itself a panic in Rust. -/
def file_contents (c : Changelog) : Res Str :=
  match displayChangelog c with
  | .ok s => .ok (trimEndNlAll (replacePass s) ++ ['\n'])
  | .err _ => .panicked "a formatting trait implementation returned an error".toList
  | .panicked m => .panicked m

/-! ## Concrete documents used by the claim theorems -/

/-- A parseable document whose description contains a run of three blank
lines. -/
def mdC1 : Str := "# T\n\na\n\n\n\nb\n".toList

/-- The doctest input of `Changelog::parse`. -/
def mdC2 : Str := "# Changelog\n## 0.1.0 - 2024-04-28\n- Initial release\n".toList

/-- The doctest parse options. -/
def optsDoc : ParseOpts :=
  ⟨some "https://github.com/napalmpapalam/keep-a-changelog-rs".toList, some "v".toList,
   some "master".toList⟩

/-- The rendered form of the doctest document. -/
def docRender : Str :=
  ("<!-- markdownlint-disable MD022 MD032 -->\n# Changelog\n" ++
   "All notable changes to this project will be documented in this file.\n\n" ++
   "The format is based on [Keep a Changelog](https://keepachangelog.com/en/1.0.0/)\n" ++
   "and this project adheres to [Semantic Versioning](https://semver.org/spec/v2.0.0.html).\n\n" ++
   "## [0.1.0] - 2024-04-28\n- Initial release\n\n" ++
   "[0.1.0]: https://github.com/napalmpapalam/keep-a-changelog-rs/releases/tag/v0.1.0\n").toList

/-- A document with two compare-shaped links of different bases. -/
def mdC6 : Str :=
  "# T\n\n[a]: https://aaa/compare/x...y\n[b]: https://bbb/compare/x...y\n".toList

/-- Another parseable document with a three-blank-line run. -/
def mdC7 : Str := "# S\n\np\n\n\n\nq\n".toList

/-- A versioned but dateless release. -/
def relC3a : Release := ⟨some ⟨1, 0, 0, [], []⟩, false, none, none, Changes.init, false⟩

/-- A dated release. -/
def relC3b : Release := ⟨some ⟨0, 9, 0, [], []⟩, false, none, some ⟨2024, 1, 1⟩, Changes.init, false⟩

/-- An Unreleased release: no version, no date. -/
def relU : Release := ⟨none, false, none, none, Changes.init, false⟩

/-- A changelog with one dated, versioned release and no repository URL. -/
def c5doc : Changelog :=
  ⟨none, none, none, none, "HEAD".toList, none, none,
   [⟨some ⟨1, 0, 0, [], []⟩, false, none, some ⟨2024, 1, 1⟩, Changes.init, false⟩], [], none, false⟩

/-- A default-built changelog (all fields at their defaults). -/
def cEmpty : Changelog :=
  ⟨none, none, none, none, "HEAD".toList, none, none, [], [], none, false⟩

set_option maxRecDepth 10000

/-! ## Claim theorems -/

/-- Claim C1, counterexample: round-trip idempotence fails.  For the
document parsed from `mdC1`, the first render still contains a double blank
line (the single collapse pass leaves one behind), and re-parsing and
re-rendering collapses it further, so
`render(parse(render(D)))` differs from `render(D)`. -/
theorem c1_counterexample :
    ((Changelog.parse mdC1 none).bind file_contents).bind
        (fun s => (Changelog.parse s none).bind file_contents) ≠
      (Changelog.parse mdC1 none).bind file_contents ∧
    (Changelog.parse mdC1 none).bind file_contents = .ok "# T\n\na\n\n\nb\n".toList ∧
    ((Changelog.parse mdC1 none).bind file_contents).bind
        (fun s => (Changelog.parse s none).bind file_contents) =
      .ok "# T\n\na\n\nb\n".toList := by
  refine ⟨?_, by decide, by decide⟩
  decide

/-- Claim C1, amended: render-parse-render is not idempotent in general
(see the counterexample: a run of four or more newlines shrinks again on
the second render); it does hold for documents whose render contains no
such run, e.g. the doctest document parsed with the doctest options:
its render re-parses and re-renders byte-identically. -/
theorem c1_theorem :
    (Changelog.parse mdC2 (some optsDoc)).bind file_contents = .ok docRender ∧
    (Changelog.parse docRender (some optsDoc)).bind file_contents = .ok docRender := by
  constructor
  · decide
  · decide

/-- Claim C2, counterexample: parsing the doctest input yields a release
whose change set is empty — the `- Initial release` list item is consumed
by the release-description rule, not recorded as an Added entry. -/
theorem c2_counterexample :
    (Changelog.parse mdC2 none).map (fun c => c.releases.map fun r => r.changes.added) =
      .ok [[]] ∧
    (Res.ok [[]] : Res (List (List Str))) ≠ .ok [["Initial release".toList]] := by
  exact ⟨by decide, by decide⟩

/-- Claim C2, amended: parsing the input succeeds with exactly one release,
version `0.1.0`, date `2024-04-28`, not yanked — but with an entirely empty
change set and with release description `"- Initial release"` (the list
item is consumed by the description rule before the change-section loop). -/
theorem c2_theorem :
    (Changelog.parse mdC2 none).map (fun c => c.releases.map fun r => r.version) =
      .ok [some ⟨0, 1, 0, [], []⟩] ∧
    (Changelog.parse mdC2 none).map (fun c => c.releases.map fun r => r.date) =
      .ok [some ⟨2024, 4, 28⟩] ∧
    (Changelog.parse mdC2 none).map (fun c => c.releases.map fun r => r.yanked) =
      .ok [false] ∧
    (Changelog.parse mdC2 none).map (fun c => c.releases.map fun r => r.description) =
      .ok [some "- Initial release".toList] ∧
    (Changelog.parse mdC2 none).map (fun c => c.releases.map fun r => r.changes) =
      .ok [Changes.init] := by
  refine ⟨by decide, by decide, by decide, by decide, by decide⟩

/-- Claim C4: the tokenizer is not total.  Its compact-detection loop reads
`tokens[idx + 1]` for an H1 token without a bounds check; on the one-line
input `"# Changelog"` the H1 token is last and the read panics with an
index-out-of-bounds error instead of returning normally. -/
theorem c4_theorem :
    tokenize "# Changelog".toList =
      .panicked "index out of bounds: the len is 1 but the index is 1".toList := by
  decide

/-- Claim C5, counterexample: rendering a document that needs a compare
link but has no repository URL does not produce a failed result — the
`Display` implementation unwraps the failing `compare_link` with
`.expect`, i.e. a panic. -/
theorem c5_counterexample :
    displayChangelog c5doc = .panicked "Failed to get compare link: Missing repo URL".toList ∧
    file_contents c5doc = .panicked "Failed to get compare link: Missing repo URL".toList := by
  exact ⟨by decide, by decide⟩

/-- Claim C5, amended: for every changelog with `url` absent,
`Changelog::compare_link` fails with the `"Missing repo URL"` diagnostic
for any current/previous pair; rendering propagates this as a panic (via
`.expect`), not as a failed result, and yields no output. -/
theorem c5_theorem :
    (∀ (c : Changelog) (current : Release) (previous : Option Release),
      c.url = none → c.compare_link current previous = .err "Missing repo URL".toList) ∧
    file_contents c5doc = .panicked "Failed to get compare link: Missing repo URL".toList := by
  constructor
  · intro c current previous h
    simp [Changelog.compare_link, h]
  · decide

/-- Witness for `c5_theorem` at a concrete changelog and release. -/
theorem c5_witness :
    c5doc.compare_link relC3b none = .err "Missing repo URL".toList :=
  c5_theorem.1 c5doc relC3b none rfl

/-- Claim C6, counterexample: with two compare-shaped links (bases
`https://aaa` then `https://bbb`) and no externally supplied URL, the
stored repository URL is the base of the **last** matching link, not the
first. -/
theorem c6_counterexample :
    (Changelog.parse mdC6 none).map (fun c => c.url) = .ok (some "https://bbb".toList) ∧
    (Res.ok (some "https://bbb".toList) : Res (Option Str)) ≠
      .ok (some "https://aaa".toList) := by
  exact ⟨by decide, by decide⟩

/-- The base of the last link token matching the compare shape. -/
def lastBase : List Token → Option Str
  | [] => none
  | t :: rest =>
    match lastBase rest with
    | some b => some b
    | none => compareBase (joinNl t.content)

theorem plGo_none_url (toks : List Token) :
    ∀ b : CB, (plGo none b toks).1.url =
      match lastBase toks with
      | some base => some (some base)
      | none => b.url := by
  induction toks with
  | nil => intro b; rfl
  | cons t rest ih =>
    intro b
    have key : (plGo none b (t :: rest)).1 =
        (plGo none (match compareBase (joinNl t.content) with
          | some base => { b with url := some (some base) }
          | none => b) rest).1 := by
      simp [plGo]
    rw [key, ih]
    cases hl : lastBase rest with
    | some base => simp [lastBase, hl]
    | none =>
      cases hc : compareBase (joinNl t.content) with
      | some b2 => simp [lastBase, hl, hc]
      | none => simp [lastBase, hl, hc]

theorem plGo_some_url (toks : List Token) :
    ∀ (u : Str) (b : CB), (plGo (some u) b toks).1.url = b.url := by
  induction toks with
  | nil => intro u b; rfl
  | cons t rest ih =>
    intro u b
    have key : (plGo (some u) b (t :: rest)).1 = (plGo (some u) b rest).1 := by
      simp [plGo]
    rw [key, ih]

/-- Claim C6, amended: during `parse_links`, when no repository URL is
supplied in the options the builder's URL ends up as the base of the
**last** link matching the compare shape (each matching link overwrites,
because the guard tests the options, not the builder); without any match
it is left unchanged; an externally supplied URL is never overridden. -/
theorem c6_theorem :
    ∀ (toks : List Token) (b : CB),
      ((plGo none b toks).1.url =
        match lastBase toks with
        | some base => some (some base)
        | none => b.url) ∧
      ∀ u : Str, (plGo (some u) b toks).1.url = b.url := by
  intro toks b
  exact ⟨plGo_none_url toks b, fun u => plGo_some_url toks u b⟩

/-- The rendered form of `mdC7`'s document. -/
def c7render : Str := "# S\n\np\n\n\nq\n".toList

/-- Claim C7, counterexample: the rendered output of the document parsed
from `mdC7` contains two **consecutive** blank lines (`"\n\n\n"`, i.e. the
line list `p, blank, blank, q`): the single non-overlapping replace pass
does not fully collapse a run of four newlines. -/
theorem c7_counterexample :
    (Changelog.parse mdC7 none).bind file_contents = .ok c7render ∧
    containsSub "\n\n\n".toList c7render = true ∧
    splitLines c7render =
      ["# S".toList, [], "p".toList, [], [], "q".toList, []] := by
  exact ⟨by decide, by decide, by decide⟩

theorem dropWhile_head_not (p : Char → Bool) :
    ∀ (l : Str) (c : Char), (l.dropWhile p).head? = some c → p c = false := by
  intro l
  induction l with
  | nil => intro c h; simp [List.dropWhile] at h
  | cons a rest ih =>
    intro c h
    rw [List.dropWhile_cons] at h
    by_cases hp : p a
    · rw [if_pos hp] at h
      exact ih c h
    · rw [if_neg hp] at h
      simp only [List.head?_cons, Option.some.injEq] at h
      subst h
      simpa using hp

/-- Claim C7, amended: the collapse is a single left-to-right
non-overlapping pass replacing each `"\n\n\n"` by `"\n\n"` (so a run of
four or more newlines can leave two consecutive blank lines, see the
counterexample); the trailing-newline half of the claim holds: every
successful render ends with exactly one `'\n'`. -/
theorem c7_theorem :
    ∀ (c : Changelog) (t : Str), file_contents c = .ok t →
      t ≠ [] ∧ t.getLast? = some '\n' ∧ t.dropLast.getLast? ≠ some '\n' := by
  intro c t h
  cases hd : displayChangelog c with
  | ok s =>
    rw [file_contents, hd] at h
    have ht : t = trimEndNlAll (replacePass s) ++ ['\n'] := by
      cases h
      rfl
    subst ht
    refine ⟨by simp, List.getLast?_concat _, ?_⟩
    rw [List.dropLast_concat]
    intro hcontra
    rw [trimEndNlAll, List.getLast?_reverse] at hcontra
    have := dropWhile_head_not (fun c => c == '\n') _ _ hcontra
    simp at this
  | err m => rw [file_contents, hd] at h; cases h
  | panicked m => rw [file_contents, hd] at h; cases h

/-- The rendered form of the default changelog. -/
def eRender : Str :=
  ("# Changelog\n\nAll notable changes to this project will be documented in this file.\n\n" ++
   "The format is based on [Keep a Changelog](https://keepachangelog.com/en/1.0.0/)\n" ++
   "and this project adheres to [Semantic Versioning](https://semver.org/spec/v2.0.0.html).\n").toList

/-- Witness for `c7_theorem` at the default changelog. -/
theorem c7_witness :
    eRender ≠ [] ∧ eRender.getLast? = some '\n' ∧ eRender.dropLast.getLast? ≠ some '\n' :=
  c7_theorem cEmpty eRender (by decide)

/-- Claim C8: a release-heading (H2) token whose lower-cased text matches
neither the dated pattern nor contains "unreleased" makes the release loop
fail with the error citing the token's source line, its kind
(`Heading 2`), the raw heading text, and both accepted formats; on the
concrete input `"# Changelog\n\n## NotAVersion"` the whole parse fails
with exactly that message for line 3. -/
theorem c8_theorem :
    (∀ (t : Token) (rest : List Token), t.kind = .h2 →
      reSearch releaseRE (toLowerStr (joinNl t.content)) = none →
      containsSub "unreleased".toList (toLowerStr (joinNl t.content)) = false →
      parse_releases (t :: rest) =
        .err ("Failed to parse release token at line: ".toList ++ natToStr t.line ++
          ", kind: ".toList ++ TokenKind.h2.display ++ ", content: `## ".toList ++
          joinNl t.content ++
          "`. Expected format: `## [VERSION] - [DATE]` or `## [Unreleased]`".toList)) ∧
    Changelog.parse "# Changelog\n\n## NotAVersion".toList none =
      .err ("Failed to parse release token at line: 3, kind: Heading 2, content: " ++
        "`## NotAVersion`. Expected format: `## [VERSION] - [DATE]` or `## [Unreleased]`").toList := by
  constructor
  · intro t rest hk hre hc
    simp only [parse_releases, List.length_cons, parseRelGo, hk, if_true]
    simp only [releaseHeadB, hre, hc]
    simp
    rw [hk]
  · decide

/-- Witness for `c8_theorem` at a concrete malformed heading token. -/
theorem c8_witness :
    parse_releases [⟨7, .h2, ["NotAVersion".toList]⟩] =
      .err ("Failed to parse release token at line: 7, kind: Heading 2, content: " ++
        "`## NotAVersion`. Expected format: `## [VERSION] - [DATE]` or `## [Unreleased]`").toList := by
  have h := c8_theorem.1 ⟨7, .h2, ["NotAVersion".toList]⟩ [] rfl (by decide) (by decide)
  rw [h]
  decide

/-! ## Release-ordering lemmas (claim C3) -/

/-- The descending-sort relation between adjacent stored releases:
the later one is not strictly more recent. -/
def relGe (a b : Release) : Prop := optDateLtB a.date b.date = false

theorem optLt_asymm (a b : Option CalDate) :
    optDateLtB a b = true → optDateLtB b a = false := by
  cases a with
  | none =>
    cases b with
    | none => simp [optDateLtB]
    | some y => simp [optDateLtB]
  | some x =>
    cases b with
    | none => simp [optDateLtB]
    | some y =>
      simp only [optDateLtB, decide_eq_true_eq, decide_eq_false_iff_not]
      omega

theorem optLt_false_trans (a b c : Option CalDate) :
    optDateLtB a b = false → optDateLtB b c = false → optDateLtB a c = false := by
  cases a with
  | none =>
    cases b with
    | none =>
      cases c with
      | none => simp [optDateLtB]
      | some z => simp [optDateLtB]
    | some y =>
      intro h
      simp [optDateLtB] at h
  | some x =>
    cases b with
    | none =>
      cases c with
      | none => simp [optDateLtB]
      | some z =>
        intro _ h
        simp [optDateLtB] at h
    | some y =>
      cases c with
      | none => simp [optDateLtB]
      | some z =>
        simp only [optDateLtB, decide_eq_false_iff_not]
        omega

theorem mem_insertRel (r a : Release) :
    ∀ l : List Release, a ∈ insertRel r l ↔ a = r ∨ a ∈ l := by
  intro l
  induction l with
  | nil => simp [insertRel]
  | cons x xs ih =>
    simp only [insertRel]
    split
    · simp only [List.mem_cons, ih]
      tauto
    · simp only [List.mem_cons]

theorem pairwise_insertRel (r : Release) :
    ∀ l : List Release, l.Pairwise relGe → (insertRel r l).Pairwise relGe := by
  intro l
  induction l with
  | nil =>
    intro _
    simp [insertRel, List.pairwise_cons]
  | cons x xs ih =>
    intro hp
    rw [List.pairwise_cons] at hp
    simp only [insertRel]
    split
    · rename_i hlt
      rw [List.pairwise_cons]
      constructor
      · intro a ha
        rw [mem_insertRel] at ha
        cases ha with
        | inl h =>
          subst h
          exact optLt_asymm _ _ hlt
        | inr h => exact hp.1 a h
      · exact ih hp.2
    · rename_i hge
      rw [List.pairwise_cons]
      constructor
      · intro a ha
        cases ha with
        | head =>
          show relGe r x
          unfold relGe
          simpa using hge
        | tail _ h =>
          exact optLt_false_trans r.date x.date a.date
            (by simpa using hge) (hp.1 a h)
      · rw [List.pairwise_cons]
        exact hp

theorem perm_insertRel (r : Release) :
    ∀ l : List Release, (insertRel r l).Perm (r :: l) := by
  intro l
  induction l with
  | nil => simp [insertRel]
  | cons x xs ih =>
    simp only [insertRel]
    split
    · exact (ih.cons x).trans (List.Perm.swap r x xs)
    · exact List.Perm.refl _

theorem pairwise_isortRel : ∀ l : List Release, (isortRel l).Pairwise relGe := by
  intro l
  induction l with
  | nil => simp [isortRel]
  | cons r rs ih => exact pairwise_insertRel r _ ih

theorem perm_isortRel : ∀ l : List Release, (isortRel l).Perm l := by
  intro l
  induction l with
  | nil => simp [isortRel]
  | cons r rs ih => exact (perm_insertRel r (isortRel rs)).trans (ih.cons r)

theorem extractFirst_spec (p : Release → Bool) :
    ∀ l : List Release,
      ((extractFirst p l).1 = l.find? p) ∧
      (∀ u, l.find? p = some u → l.Perm (u :: (extractFirst p l).2)) := by
  intro l
  induction l with
  | nil => exact ⟨rfl, fun u h => by cases h⟩
  | cons x xs ih =>
    by_cases hx : p x
    · refine ⟨?_, ?_⟩
      · simp [extractFirst, hx, List.find?_cons_of_pos _ hx]
      · intro u hu
        rw [List.find?_cons_of_pos _ hx] at hu
        cases hu
        simp [extractFirst, hx]
    · refine ⟨?_, ?_⟩
      · simp [extractFirst, hx, List.find?_cons_of_neg _ hx, ih.1]
      · intro u hu
        rw [List.find?_cons_of_neg _ hx] at hu
        have hperm := ih.2 u hu
        have : extractFirst p (x :: xs) = ((extractFirst p xs).1, x :: (extractFirst p xs).2) := by
          simp [extractFirst, hx]
        rw [this]
        exact (hperm.cons x).trans (List.Perm.swap u x _)

/-- Claim C3, counterexample: a dateless release that has a version is not
pinned at index 0 — it participates in the descending date sort and its
`None` date orders last. -/
theorem c3_counterexample :
    sort_releases [relC3a, relC3b] = [relC3b, relC3a] ∧
    relC3a.date = none ∧
    (sort_releases [relC3a, relC3b]).head? ≠ some relC3a := by
  exact ⟨by decide, rfl, by decide⟩

/-- Claim C3, amended: after construction and after every `add_release`,
the stored sequence is a permutation of the inserted releases; the first
release with **both** version and date absent (if any) is excluded from the
comparison and placed at index 0 with the remainder sorted descending by
date (`relGe` between neighbours, dates compared lexicographically with
`None` least — version is never consulted); with no such fully-empty
release the whole list is sorted descending by date. -/
theorem c3_theorem :
    (∀ rs : List Release,
      (sort_releases rs).Perm rs ∧
      (∀ u, rs.find? unreleasedP = some u →
        (sort_releases rs).head? = some u ∧ (sort_releases rs).tail.Pairwise relGe) ∧
      (rs.find? unreleasedP = none → (sort_releases rs).Pairwise relGe)) ∧
    (∀ (c : Changelog) (r : Release),
      (c.add_release r).releases = sort_releases (r :: c.releases)) ∧
    (∀ (b : CB) (rs : List Release),
      (CB.setReleases b rs).releases = some (sort_releases rs)) := by
  refine ⟨?_, fun c r => rfl, fun b rs => rfl⟩
  intro rs
  obtain ⟨hfst, hperm⟩ := extractFirst_spec unreleasedP rs
  cases hf : rs.find? unreleasedP with
  | some u =>
    have hpair : extractFirst unreleasedP rs = (some u, (extractFirst unreleasedP rs).2) := by
      rw [← hfst.trans hf]
    have hsort : sort_releases rs = u :: isortRel (extractFirst unreleasedP rs).2 := by
      rw [sort_releases, hpair]
    refine ⟨?_, ?_, ?_⟩
    · rw [hsort]
      exact ((perm_isortRel _).cons u).trans (hperm u hf).symm
    · intro u' hu'
      cases hu'
      rw [hsort]
      exact ⟨rfl, pairwise_isortRel _⟩
    · intro hnone
      cases hnone
  | none =>
    have hpair : extractFirst unreleasedP rs = (none, (extractFirst unreleasedP rs).2) := by
      rw [← hfst.trans hf]
    have hsort : sort_releases rs = isortRel rs := by
      rw [sort_releases, hpair]
    refine ⟨?_, ?_, ?_⟩
    · rw [hsort]
      exact perm_isortRel rs
    · intro u' hu'
      cases hu'
    · intro _
      rw [hsort]
      exact pairwise_isortRel rs

/-- Witness for `c3_theorem`: a list holding a dated release, an
Unreleased release and a dateless-versioned release sorts with the
Unreleased release pinned first and the remainder pairwise descending. -/
theorem c3_witness :
    (sort_releases [relC3b, relU, relC3a]).head? = some relU ∧
    (sort_releases [relC3b, relU, relC3a]).tail.Pairwise relGe := by
  exact (c3_theorem.1 [relC3b, relU, relC3a]).2.1 relU (by decide)

/-! ## Lint-set lemmas (claim C10) -/

/-- Membership in the disabled-lint set of a changelog. -/
def lintHas (c : Changelog) (x : Str) : Prop := ∃ l, c.lint = some l ∧ x ∈ l

theorem mem_lintInsert (l : List Str) (y x : Str) :
    x ∈ lintInsert l y ↔ x ∈ l ∨ x = y := by
  unfold lintInsert
  by_cases h : l.contains y
  · rw [if_pos h]
    have hy : y ∈ l := List.elem_iff.mp h
    constructor
    · exact Or.inl
    · rintro (hx | rfl)
      · exact hx
      · exact hy
  · rw [if_neg h]
    simp [List.mem_append]

theorem lintHas_disable (c : Changelog) (y x : Str) :
    lintHas (c.disable_lint y) x ↔ lintHas c x ∨ x = y := by
  unfold Changelog.disable_lint
  simp only [lintHas, Option.some.injEq, exists_eq_left']
  rw [mem_lintInsert]
  cases hc : c.lint with
  | none => simp [hc]
  | some d => simp [hc]

theorem lintHas_some_iff (c : Changelog) (d : List Str) (hc : c.lint = some d) (x : Str) :
    lintHas c x ↔ x ∈ d := by
  unfold lintHas
  rw [hc]
  constructor
  · rintro ⟨l, hl, hx⟩
    cases hl
    exact hx
  · intro hx
    exact ⟨d, rfl, hx⟩

theorem lintHas_none (c : Changelog) (hc : c.lint = none) (x : Str) : ¬ lintHas c x := by
  unfold lintHas
  rw [hc]
  rintro ⟨l, hl, _⟩
  cases hl

theorem enable_lint_none (c : Changelog) (y : Str) (hc : c.lint = none) :
    c.enable_lint y = c := by
  unfold Changelog.enable_lint
  rw [hc]

theorem enable_lint_some (c : Changelog) (y : Str) (d : List Str) (hc : c.lint = some d) :
    c.enable_lint y =
      { c with lint := if (d.filter fun z => !(z == y)).isEmpty then none
          else some (d.filter fun z => !(z == y)) } := by
  unfold Changelog.enable_lint
  rw [hc]

theorem lintHas_enable (c : Changelog) (y x : Str) :
    lintHas (c.enable_lint y) x ↔ lintHas c x ∧ x ≠ y := by
  cases hc : c.lint with
  | none =>
    rw [enable_lint_none c y hc]
    have hn := lintHas_none c hc x
    constructor
    · intro h
      exact absurd h hn
    · rintro ⟨h, _⟩
      exact absurd h hn
  | some d =>
    rw [enable_lint_some c y d hc]
    by_cases he : (d.filter fun z => !(z == y)).isEmpty
    · rw [if_pos he]
      have hnone : ¬ lintHas { c with lint := none } x := lintHas_none _ rfl x
      rw [List.isEmpty_iff, List.filter_eq_nil_iff] at he
      constructor
      · intro h
        exact absurd h hnone
      · rintro ⟨h, hne⟩
        have hx : x ∈ d := (lintHas_some_iff c d hc x).mp h
        have := he x hx
        simp only [Bool.not_eq_true', beq_eq_false_iff_ne, ne_eq, not_not] at this
        exact absurd this hne
    · rw [if_neg he]
      rw [lintHas_some_iff _ (d.filter fun z => !(z == y)) rfl x, List.mem_filter,
        lintHas_some_iff c d hc x]
      simp [beq_eq_false_iff_ne]

theorem enable_none_iff (c : Changelog) (y : Str) :
    (c.enable_lint y).lint = none ↔ (∀ x, lintHas c x → x = y) := by
  cases hc : c.lint with
  | none =>
    rw [enable_lint_none c y hc]
    constructor
    · intro _ x hx
      exact absurd hx (lintHas_none c hc x)
    · intro _
      exact hc
  | some d =>
    rw [enable_lint_some c y d hc]
    by_cases he : (d.filter fun z => !(z == y)).isEmpty
    · rw [if_pos he]
      rw [List.isEmpty_iff, List.filter_eq_nil_iff] at he
      constructor
      · intro _ x hx
        have hm : x ∈ d := (lintHas_some_iff c d hc x).mp hx
        have := he x hm
        simpa only [Bool.not_eq_true', beq_eq_false_iff_ne, ne_eq, not_not] using this
      · intro _
        rfl
    · rw [if_neg he]
      rw [List.isEmpty_iff] at he
      constructor
      · intro hcontra
        cases hcontra
      · intro hall
        exfalso
        obtain ⟨a, ha⟩ := List.exists_mem_of_ne_nil _ he
        rw [List.mem_filter] at ha
        have hay : a = y := hall a ((lintHas_some_iff c d hc a).mpr ha.1)
        have := ha.2
        simp only [Bool.not_eq_true', beq_eq_false_iff_ne, ne_eq] at this
        exact this hay

theorem enable_lint_shape (c : Changelog) (y : Str) :
    c.enable_lint y = { c with lint := (c.enable_lint y).lint } := by
  cases hc : c.lint with
  | none => rw [enable_lint_none c y hc]
  | some d => rw [enable_lint_some c y d hc]

theorem enable_lint_fields (c : Changelog) (y : Str) :
    (c.enable_lint y).flag = c.flag ∧ (c.enable_lint y).title = c.title ∧
    (c.enable_lint y).description = c.description ∧ (c.enable_lint y).head = c.head ∧
    (c.enable_lint y).footer = c.footer ∧ (c.enable_lint y).url = c.url ∧
    (c.enable_lint y).releases = c.releases ∧ (c.enable_lint y).links = c.links ∧
    (c.enable_lint y).tagPfx = c.tagPfx ∧ (c.enable_lint y).compact = c.compact := by
  cases hc : c.lint with
  | none =>
    rw [enable_lint_none c y hc]
    exact ⟨rfl, rfl, rfl, rfl, rfl, rfl, rfl, rfl, rfl, rfl⟩
  | some d =>
    rw [enable_lint_some c y d hc]
    exact ⟨rfl, rfl, rfl, rfl, rfl, rfl, rfl, rfl, rfl, rfl⟩

/-- Claim C10: `set_compact` sets the flag and inserts MD022/MD032 into the
disabled-lint set (creating it if absent); `unset_compact` clears the flag,
removes both codes, and resets the set to absent exactly when nothing else
remains; the builder's `compact(true)` replaces the set with exactly
`{MD022, MD032}` and `compact(false)` clears the builder's lint field; all
other fields are unchanged by these operations. -/
theorem c10_theorem :
    ∀ (c : Changelog) (b : CB) (x : Str) (cb : Bool),
      (c.set_compact.compact = true ∧
        lintHas c.set_compact "MD022".toList ∧
        lintHas c.set_compact "MD032".toList ∧
        (lintHas c.set_compact x ↔ lintHas c x ∨ x = "MD022".toList ∨ x = "MD032".toList) ∧
        c.set_compact.flag = c.flag ∧ c.set_compact.title = c.title ∧
        c.set_compact.description = c.description ∧ c.set_compact.head = c.head ∧
        c.set_compact.footer = c.footer ∧ c.set_compact.url = c.url ∧
        c.set_compact.releases = c.releases ∧ c.set_compact.links = c.links ∧
        c.set_compact.tagPfx = c.tagPfx) ∧
      (c.unset_compact.compact = false ∧
        (lintHas c.unset_compact x ↔
          lintHas c x ∧ x ≠ "MD022".toList ∧ x ≠ "MD032".toList) ∧
        (c.unset_compact.lint = none ↔
          ∀ y, lintHas c y → y = "MD022".toList ∨ y = "MD032".toList) ∧
        c.unset_compact.flag = c.flag ∧ c.unset_compact.title = c.title ∧
        c.unset_compact.description = c.description ∧ c.unset_compact.head = c.head ∧
        c.unset_compact.footer = c.footer ∧ c.unset_compact.url = c.url ∧
        c.unset_compact.releases = c.releases ∧ c.unset_compact.links = c.links ∧
        c.unset_compact.tagPfx = c.tagPfx) ∧
      ((CB.setCompact b true).compact = some true ∧
        (CB.setCompact b true).lint = some (some ["MD022".toList, "MD032".toList]) ∧
        (CB.setCompact b false).compact = some false ∧
        (CB.setCompact b false).lint = none ∧
        (CB.setCompact b cb).flag = b.flag ∧ (CB.setCompact b cb).title = b.title ∧
        (CB.setCompact b cb).description = b.description ∧
        (CB.setCompact b cb).head = b.head ∧ (CB.setCompact b cb).footer = b.footer ∧
        (CB.setCompact b cb).url = b.url ∧ (CB.setCompact b cb).releases = b.releases ∧
        (CB.setCompact b cb).links = b.links ∧ (CB.setCompact b cb).tagPfx = b.tagPfx) := by
  intro c b x cb
  have h032 := lintHas_disable (({ c with compact := true }).disable_lint "MD022".toList)
    "MD032".toList
  have h022 := lintHas_disable ({ c with compact := true }) "MD022".toList
  obtain ⟨ef2, et2, ed2, eh2, efo2, eu2, er2, el2, etp2, ec2⟩ := enable_lint_fields
    (({ c with compact := false }).enable_lint "MD022".toList) "MD032".toList
  obtain ⟨ef1, et1, ed1, eh1, efo1, eu1, er1, el1, etp1, ec1⟩ := enable_lint_fields
    ({ c with compact := false }) "MD022".toList
  refine ⟨⟨rfl, ?_, ?_, ?_, rfl, rfl, rfl, rfl, rfl, rfl, rfl, rfl, rfl⟩,
    ⟨?_, ?_, ?_, ?_, ?_, ?_, ?_, ?_, ?_, ?_, ?_, ?_⟩,
    ⟨rfl, rfl, rfl, rfl, rfl, rfl, rfl, rfl, rfl, rfl, rfl, rfl, rfl⟩⟩
  · exact (h032 _).mpr (Or.inl ((h022 _).mpr (Or.inr rfl)))
  · exact (h032 _).mpr (Or.inr rfl)
  · exact (h032 x).trans ((or_congr (h022 x) Iff.rfl).trans or_assoc)
  · exact ec2.trans ec1
  · have h1 := lintHas_enable
      (({ c with compact := false }).enable_lint "MD022".toList) "MD032".toList x
    have h2 := lintHas_enable ({ c with compact := false }) "MD022".toList x
    exact h1.trans ((and_congr h2 Iff.rfl).trans and_assoc)
  · have h0 := enable_none_iff
      (({ c with compact := false }).enable_lint "MD022".toList) "MD032".toList
    refine h0.trans ⟨?_, ?_⟩
    · intro h y hy
      by_cases hy22 : y = "MD022".toList
      · exact Or.inl hy22
      · exact Or.inr (h y ((lintHas_enable ({ c with compact := false }) _ y).mpr ⟨hy, hy22⟩))
    · intro h z hz
      rw [lintHas_enable] at hz
      obtain ⟨hcz, hne⟩ := hz
      cases h z hcz with
      | inl h22 => exact absurd h22 hne
      | inr h32 => exact h32
  · exact ef2.trans ef1
  · exact et2.trans et1
  · exact ed2.trans ed1
  · exact eh2.trans eh1
  · exact efo2.trans efo1
  · exact eu2.trans eu1
  · exact er2.trans er1
  · exact el2.trans el1
  · exact etp2.trans etp1

/-! ## Symbolic tokenizer lemmas (claim C9) -/

/-- A character that cannot start or continue any special line
classification: not whitespace and not one of the classifier head
characters. -/
def plainChar (c : Char) : Bool :=
  !(isRegexWs c) && !('-' == c) && !('*' == c) && !('#' == c) && !('[' == c) && !('<' == c)

theorem plain_parts (c : Char) (h : plainChar c = true) :
    isRegexWs c = false ∧ ('-' == c) = false ∧ ('*' == c) = false ∧ ('#' == c) = false ∧
    ('[' == c) = false ∧ ('<' == c) = false := by
  simp only [plainChar, Bool.and_eq_true, Bool.not_eq_true'] at h
  exact ⟨h.1.1.1.1.1, h.1.1.1.1.2, h.1.1.1.2, h.1.1.2, h.1.2, h.2⟩

theorem notRegexWs_notWs (c : Char) (h : isRegexWs c = false) : isWsChar c = false := by
  simp only [isRegexWs, Bool.or_eq_false_iff] at h
  simp only [isWsChar, Bool.or_eq_false_iff]
  exact h.1.1

theorem notRegexWs_ne_nl (c : Char) (h : isRegexWs c = false) : ¬ c = '\n' := by
  simp only [isRegexWs, Bool.or_eq_false_iff, decide_eq_false_iff_not] at h
  exact h.1.1.1.2

theorem plain_ws (c : Char) (h : plainChar c = true) : isWsChar c = false :=
  notRegexWs_notWs c (plain_parts c h).1

theorem plain_ne_nl (c : Char) (h : plainChar c = true) : ¬ c = '\n' :=
  notRegexWs_ne_nl c (plain_parts c h).1

theorem splitOnChar_no_sep (sep : Char) :
    ∀ w : Str, (∀ x ∈ w, ¬ x = sep) → splitOnChar sep w = [w] := by
  intro w
  induction w with
  | nil => intro _; rfl
  | cons a as ih =>
    intro h
    have ha := h a (List.mem_cons_self a as)
    simp only [splitOnChar, if_neg ha, ih (fun x hx => h x (List.mem_cons_of_mem a hx))]

theorem splitOnChar_append_sep (sep : Char) :
    ∀ xs : Str, (∀ x ∈ xs, ¬ x = sep) → ∀ ys : Str,
      splitOnChar sep (xs ++ sep :: ys) = xs :: splitOnChar sep ys := by
  intro xs
  induction xs with
  | nil =>
    intro _ ys
    simp [splitOnChar]
  | cons a as ih =>
    intro h ys
    have ha := h a (List.mem_cons_self a as)
    have ih' := ih (fun x hx => h x (List.mem_cons_of_mem a hx)) ys
    simp only [List.cons_append, splitOnChar, if_neg ha, List.append_eq]
    rw [ih']

theorem dropWs_eq_of_head (c : Char) (w : Str) (h : isWsChar c = false) :
    dropWs (c :: w) = c :: w := by
  simp [dropWs, List.dropWhile_cons, h]

theorem trimEndWs_append_eq (l w : Str) (hw : w ≠ []) (h : ∀ x ∈ w, isWsChar x = false) :
    trimEndWs (l ++ w) = l ++ w := by
  unfold trimEndWs
  cases hrev : w.reverse with
  | nil => exact absurd (List.reverse_eq_nil_iff.mp hrev) hw
  | cons a t =>
    have ha : a ∈ w := by
      rw [← List.mem_reverse, hrev]
      exact List.mem_cons_self a t
    rw [List.reverse_append, hrev, List.cons_append, List.dropWhile_cons, h a ha]
    simp only [Bool.false_eq_true, if_false]
    rw [← List.cons_append, ← hrev, ← List.reverse_append, List.reverse_reverse]

theorem trimEndWs_plain (c : Char) (w0 : Str) (h : ∀ x ∈ c :: w0, isWsChar x = false) :
    trimEndWs (c :: w0) = c :: w0 := by
  have := trimEndWs_append_eq [] (c :: w0) (List.cons_ne_nil c w0) h
  simpa using this

theorem trimStr_plain (c : Char) (w0 : Str) (h : ∀ x ∈ c :: w0, isWsChar x = false) :
    trimStr (c :: w0) = c :: w0 := by
  rw [trimStr, dropWs_eq_of_head c w0 (h c (List.mem_cons_self c w0)),
    trimEndWs_plain c w0 h]

theorem isEmptyStrU_plain (c : Char) (w0 : Str) (h : ∀ x ∈ c :: w0, isWsChar x = false) :
    isEmptyStrU (c :: w0) = false := by
  rw [isEmptyStrU, trimStr_plain c w0 h]
  rfl

theorem strip2_plain (c : Char) (w0 : Str) (h : isRegexWs c = false) :
    strip2 (c :: w0) = c :: w0 := by
  cases w0 with
  | nil => rfl
  | cons b bs => simp [strip2, h]

theorem extractGo_plain (ln : Nat) (c : Char) (w0 : Str)
    (h1 : ('-' == c) = false) (h2 : ('*' == c) = false) (h3 : ('#' == c) = false)
    (h4 : ('[' == c) = false) (h5 : ('<' == c) = false) :
    extractGo ln false [c :: w0] = [⟨ln, .p, [trimEndWs (c :: w0)]⟩] := by
  have hhr : "---".toList.isPrefixOf (c :: w0) = false := by
    rw [show "---".toList = '-' :: '-' :: '-' :: ([] : Str) from rfl]
    simp [List.isPrefixOf, h1]
  have hh1 : "# ".toList.isPrefixOf (c :: w0) = false := by
    rw [show "# ".toList = '#' :: ' ' :: ([] : Str) from rfl]
    simp [List.isPrefixOf, h3]
  have hh2 : "## ".toList.isPrefixOf (c :: w0) = false := by
    rw [show "## ".toList = '#' :: '#' :: ' ' :: ([] : Str) from rfl]
    simp [List.isPrefixOf, h3]
  have hh3 : "### ".toList.isPrefixOf (c :: w0) = false := by
    rw [show "### ".toList = '#' :: '#' :: '#' :: ' ' :: ([] : Str) from rfl]
    simp [List.isPrefixOf, h3]
  have hli1 : "-".toList.isPrefixOf (c :: w0) = false := by
    rw [show "-".toList = '-' :: ([] : Str) from rfl]
    simp [List.isPrefixOf, h1]
  have hli2 : "*".toList.isPrefixOf (c :: w0) = false := by
    rw [show "*".toList = '*' :: ([] : Str) from rfl]
    simp [List.isPrefixOf, h2]
  have hll : linkLineB (c :: w0) = false := by
    simp [linkLineB, h4]
  have hlr : linkRefB (c :: w0) = false := by
    rw [linkRefB]
    rw [show "[".toList = '[' :: ([] : Str) from rfl]
    simp [List.isPrefixOf, h4]
  have hcc : commentCapture (c :: w0) = none := by
    rw [commentCapture]
    rw [show "<!--".toList = '<' :: '!' :: '-' :: '-' :: ([] : Str) from rfl]
    simp [List.isPrefixOf, h5]
  simp only [extractGo, hhr, hh1, hh2, hh3, hli1, hli2, hll, hlr, hcc,
    Bool.false_eq_true, if_false, Bool.or_self]

theorem postTokens_pair (ln : Nat) (k : TokenKind) (a b : Str)
    (ha : isEmptyStrU a = false) (hb : isEmptyStrU b = false) :
    postTokens [⟨ln, k, [a, b]⟩] = [⟨ln, k, [a, b]⟩] := by
  rw [postTokens]
  simp [isEmptyStrVecU, trimBlankEdges, List.dropWhile, ha, hb]

theorem tokenize_li_plain (c : Char) (w0 : Str) (hp : ∀ x ∈ c :: w0, plainChar x = true) :
    tokenize ("- item\n".toList ++ (c :: w0)) =
      .ok (false, [⟨1, .li, ["item".toList, c :: w0]⟩]) := by
  have hws : ∀ x ∈ c :: w0, isWsChar x = false := fun x hx => plain_ws x (hp x hx)
  have hnl : ∀ x ∈ c :: w0, ¬ x = '\n' := fun x hx => plain_ne_nl x (hp x hx)
  obtain ⟨hrw, h1, h2, h3, h4, h5⟩ := plain_parts c (hp c (List.mem_cons_self c w0))
  have htrim : trimStr ("- item\n".toList ++ (c :: w0)) = "- item\n".toList ++ (c :: w0) := by
    rw [trimStr]
    rw [show dropWs ("- item\n".toList ++ (c :: w0)) = "- item\n".toList ++ (c :: w0) from
      dropWs_eq_of_head '-' _ (by decide)]
    exact trimEndWs_append_eq _ _ (List.cons_ne_nil c w0) hws
  have hsplit : splitLines ("- item\n".toList ++ (c :: w0)) = ["- item".toList, c :: w0] := by
    rw [show "- item\n".toList ++ (c :: w0) = "- item".toList ++ '\n' :: (c :: w0) from rfl]
    rw [splitLines, splitOnChar_append_sep '\n' _ (by decide) _,
      splitOnChar_no_sep '\n' _ hnl]
  have hext : extract_tokens ("- item\n".toList ++ (c :: w0)) =
      [⟨1, .li, ["item".toList]⟩, ⟨2, .p, [c :: w0]⟩] := by
    rw [extract_tokens, htrim, hsplit]
    rw [show extractGo 1 false ["- item".toList, c :: w0] =
      ⟨1, .li, [substringU "- item".toList 1]⟩ :: extractGo 2 false [c :: w0] from rfl]
    rw [extractGo_plain 2 c w0 h1 h2 h3 h4 h5]
    rw [show substringU "- item".toList 1 = "item".toList from by decide]
    rw [trimEndWs_plain c w0 hws]
  have hstep : tokenize ("- item\n".toList ++ (c :: w0)) =
      .ok (false, postTokens (mergeGo [] [⟨1, .li, ["item".toList]⟩, ⟨2, .p, [c :: w0]⟩])) := by
    rw [tokenize, hext]
    rfl
  rw [hstep]
  rw [show mergeGo [] [⟨1, .li, ["item".toList]⟩, ⟨2, .p, [c :: w0]⟩] =
    [⟨1, .li, ["item".toList, strip2 (c :: w0)]⟩] from rfl]
  rw [strip2_plain c w0 hrw]
  rw [postTokens_pair 1 .li "item".toList (c :: w0) (by decide) (isEmptyStrU_plain c w0 hws)]

theorem tokenize_li_indent (c : Char) (w0 : Str) (hp : ∀ x ∈ c :: w0, plainChar x = true) :
    tokenize ("- item\n  ".toList ++ (c :: w0)) =
      .ok (false, [⟨1, .li, ["item".toList, c :: w0]⟩]) := by
  have hws : ∀ x ∈ c :: w0, isWsChar x = false := fun x hx => plain_ws x (hp x hx)
  have hnl : ∀ x ∈ c :: w0, ¬ x = '\n' := fun x hx => plain_ne_nl x (hp x hx)
  have hnl2 : ∀ x ∈ "  ".toList ++ (c :: w0), ¬ x = '\n' := by
    intro x hx
    rcases List.mem_append.mp hx with hxl | hxr
    · have hsp : x = ' ' := by simpa using hxl
      subst hsp
      decide
    · exact hnl x hxr
  have htrim : trimStr ("- item\n  ".toList ++ (c :: w0)) =
      "- item\n  ".toList ++ (c :: w0) := by
    rw [trimStr]
    rw [show dropWs ("- item\n  ".toList ++ (c :: w0)) = "- item\n  ".toList ++ (c :: w0) from
      dropWs_eq_of_head '-' _ (by decide)]
    exact trimEndWs_append_eq _ _ (List.cons_ne_nil c w0) hws
  have hsplit : splitLines ("- item\n  ".toList ++ (c :: w0)) =
      ["- item".toList, "  ".toList ++ (c :: w0)] := by
    rw [show "- item\n  ".toList ++ (c :: w0) =
      "- item".toList ++ '\n' :: ("  ".toList ++ (c :: w0)) from rfl]
    rw [splitLines, splitOnChar_append_sep '\n' _ (by decide) _,
      splitOnChar_no_sep '\n' _ hnl2]
  have hext : extract_tokens ("- item\n  ".toList ++ (c :: w0)) =
      [⟨1, .li, ["item".toList]⟩, ⟨2, .p, ["  ".toList ++ (c :: w0)]⟩] := by
    rw [extract_tokens, htrim, hsplit]
    rw [show extractGo 1 false ["- item".toList, "  ".toList ++ (c :: w0)] =
      ⟨1, .li, [substringU "- item".toList 1]⟩ ::
        extractGo 2 false ["  ".toList ++ (c :: w0)] from rfl]
    rw [show extractGo 2 false ["  ".toList ++ (c :: w0)] =
      [⟨2, .p, [trimEndWs ("  ".toList ++ (c :: w0))]⟩] from rfl]
    rw [show substringU "- item".toList 1 = "item".toList from by decide]
    rw [trimEndWs_append_eq "  ".toList (c :: w0) (List.cons_ne_nil c w0) hws]
  have hstep : tokenize ("- item\n  ".toList ++ (c :: w0)) =
      .ok (false, postTokens (mergeGo []
        [⟨1, .li, ["item".toList]⟩, ⟨2, .p, ["  ".toList ++ (c :: w0)]⟩])) := by
    rw [tokenize, hext]
    rfl
  rw [hstep]
  rw [show mergeGo [] [⟨1, .li, ["item".toList]⟩, ⟨2, .p, ["  ".toList ++ (c :: w0)]⟩] =
    [⟨1, .li, ["item".toList, strip2 ("  ".toList ++ (c :: w0))]⟩] from rfl]
  rw [show strip2 ("  ".toList ++ (c :: w0)) = c :: w0 from rfl]
  rw [postTokens_pair 1 .li "item".toList (c :: w0) (by decide) (isEmptyStrU_plain c w0 hws)]

theorem tokenize_p_merge (c : Char) (w0 : Str) (hp : ∀ x ∈ c :: w0, plainChar x = true) :
    tokenize ("x\n".toList ++ (c :: w0)) =
      .ok (false, [⟨1, .p, ["x".toList, c :: w0]⟩]) := by
  have hws : ∀ x ∈ c :: w0, isWsChar x = false := fun x hx => plain_ws x (hp x hx)
  have hnl : ∀ x ∈ c :: w0, ¬ x = '\n' := fun x hx => plain_ne_nl x (hp x hx)
  obtain ⟨hrw, h1, h2, h3, h4, h5⟩ := plain_parts c (hp c (List.mem_cons_self c w0))
  have htrim : trimStr ("x\n".toList ++ (c :: w0)) = "x\n".toList ++ (c :: w0) := by
    rw [trimStr]
    rw [show dropWs ("x\n".toList ++ (c :: w0)) = "x\n".toList ++ (c :: w0) from
      dropWs_eq_of_head 'x' _ (by decide)]
    exact trimEndWs_append_eq _ _ (List.cons_ne_nil c w0) hws
  have hsplit : splitLines ("x\n".toList ++ (c :: w0)) = ["x".toList, c :: w0] := by
    rw [show "x\n".toList ++ (c :: w0) = "x".toList ++ '\n' :: (c :: w0) from rfl]
    rw [splitLines, splitOnChar_append_sep '\n' _ (by decide) _,
      splitOnChar_no_sep '\n' _ hnl]
  have hext : extract_tokens ("x\n".toList ++ (c :: w0)) =
      [⟨1, .p, ["x".toList]⟩, ⟨2, .p, [c :: w0]⟩] := by
    rw [extract_tokens, htrim, hsplit]
    rw [show extractGo 1 false ["x".toList, c :: w0] =
      ⟨1, .p, [trimEndWs "x".toList]⟩ :: extractGo 2 false [c :: w0] from rfl]
    rw [extractGo_plain 2 c w0 h1 h2 h3 h4 h5]
    rw [show trimEndWs "x".toList = "x".toList from by decide]
    rw [trimEndWs_plain c w0 hws]
  have hstep : tokenize ("x\n".toList ++ (c :: w0)) =
      .ok (false, postTokens (mergeGo [] [⟨1, .p, ["x".toList]⟩, ⟨2, .p, [c :: w0]⟩])) := by
    rw [tokenize, hext]
    rfl
  rw [hstep]
  rw [show mergeGo [] [⟨1, .p, ["x".toList]⟩, ⟨2, .p, [c :: w0]⟩] =
    [⟨1, .p, ["x".toList, c :: w0]⟩] from rfl]
  rw [postTokens_pair 1 .p "x".toList (c :: w0) (by decide) (isEmptyStrU_plain c w0 hws)]

/-- Claim C9, counterexample: a paragraph line with **no** leading spaces
immediately after a list item is still appended as a continuation line of
the list item — it does not stay a separate paragraph token, refuting the
"only if its raw line begins with at least two spaces" direction. -/
theorem c9_counterexample :
    tokenize "- item\nplain".toList =
      .ok (false, [⟨1, .li, ["item".toList, "plain".toList]⟩]) ∧
    (Res.ok (false, [⟨1, .li, ["item".toList, "plain".toList]⟩]) :
        Res (Bool × List Token)) ≠
      .ok (false, [⟨1, .li, ["item".toList]⟩, ⟨2, .p, ["plain".toList]⟩]) := by
  exact ⟨by decide, by decide⟩

/-- Claim C9, amended: a paragraph token immediately following a list-item
token is **always** appended as a continuation line of that list item; the
leading-whitespace test only controls stripping (the first two leading
whitespace characters are removed when present).  Consecutive paragraph
tokens merge into one multi-line paragraph token.  Stated for any non-empty
second line of inert characters `w`: without leading spaces the appended
line is `w` itself, with two leading spaces they are stripped to give the
same token, and after a paragraph the lines merge into one paragraph
token. -/
theorem c9_theorem :
    ∀ w : Str, w ≠ [] → w.all plainChar = true →
      tokenize ("- item\n".toList ++ w) =
        .ok (false, [⟨1, .li, ["item".toList, w]⟩]) ∧
      tokenize ("- item\n  ".toList ++ w) =
        .ok (false, [⟨1, .li, ["item".toList, w]⟩]) ∧
      tokenize ("x\n".toList ++ w) =
        .ok (false, [⟨1, .p, ["x".toList, w]⟩]) := by
  intro w hne hall
  have hp : ∀ x ∈ w, plainChar x = true := by
    intro x hx
    exact List.all_eq_true.mp hall x hx
  obtain ⟨c, w0, rfl⟩ := List.exists_cons_of_ne_nil hne
  exact ⟨tokenize_li_plain c w0 hp, tokenize_li_indent c w0 hp, tokenize_p_merge c w0 hp⟩

/-- Witness for `c9_theorem` at the one-character line `"y"`. -/
theorem c9_witness :
    tokenize ("- item\n".toList ++ "y".toList) =
      .ok (false, [⟨1, .li, ["item".toList, "y".toList]⟩]) ∧
    tokenize ("- item\n  ".toList ++ "y".toList) =
      .ok (false, [⟨1, .li, ["item".toList, "y".toList]⟩]) ∧
    tokenize ("x\n".toList ++ "y".toList) =
      .ok (false, [⟨1, .p, ["x".toList, "y".toList]⟩]) :=
  c9_theorem "y".toList (by decide) (by decide)
